import Mathlib

/-!
# SimpleConcurrency: the `TaskRunner` state machine

A shallow embedding of `include/SimpleConcurrency/Threading/TaskRunner.hpp`.

The runner is a record of its four data members.  User code (the task's
`Run`, `OnException`, and the completion callback given to `ThreadRunner`)
is a parameter of the model, an `Env`: each callback is a function of the
history of observable events so far, so that it can behave differently on
every invocation.  A callback may call `TerminateTask()` on the runner it is
running on (as the tests do from the completion callback); it cannot call
`AssignTask`, because the loop thread holds `m_taskMutex` for the whole of an
iteration.  Calls made by other threads are delivered from an inbox while the
loop is parked in `m_taskCV.wait`.

Traces are kept newest event first.
-/

namespace SimpleConcurrency
namespace Threading

/-- Identity of a task object (the address held by the `unique_ptr`). -/
abbrev TaskId := Nat

/-- Identity of an exception object. -/
abbrev Exn := Nat

/-- Observable calls into user code made by the runner. -/
inductive Event where
  | run (t : TaskId)
  | onException (t : TaskId) (e : Exn)
  | terminate (t : TaskId)
  | finished (t : Option TaskId)
  deriving DecidableEq, Repr

/-- How a call into user code ends: it returns a value or an exception escapes. -/
inductive Completion (α : Type) where
  | value (a : α)
  | raised (e : Exn)
  deriving DecidableEq, Repr

/-- Result of one call into user code: whether the callback called
`TerminateTask()` on the runner before it ended, and how it ended. -/
structure Call (α : Type) where
  terminates : Bool
  result : Completion α
  deriving DecidableEq, Repr

/-- User code the runner calls into.  The first argument is the trace at the
moment of the call, the event of the call itself included. -/
structure Env where
  Run : List Event → TaskId → Call Unit
  OnException : List Event → TaskId → Exn → Call Unit
  finishCallback : List Event → Option TaskId → Call (Option TaskId)

/-- The data members of `class TaskRunner` (mutex and condition variable apart). -/
structure TaskRunner where
  m_task : Option TaskId
  m_isTerminated : Bool
  m_isTerminating : Bool
  m_isThreadTaskFinished : Bool
  deriving DecidableEq, Repr

/-- A call made on the runner by another thread. -/
inductive External where
  | assignTask (t : Option TaskId)
  | terminateTask
  deriving DecidableEq, Repr

/-- The runner together with the trace of calls into user code (newest first)
and the calls other threads will make while the loop waits. -/
structure World where
  runner : TaskRunner
  trace : List Event
  inbox : List External
  deriving DecidableEq, Repr

/-- How an execution of `ThreadRunner` stands when observed. -/
inductive Exit where
  | returned
  | raised (e : Exn)
  | blocked
  | running
  deriving DecidableEq, Repr

/-- The constructor `TaskRunner()`. -/
def TaskRunner.new : TaskRunner :=
  { m_task := none, m_isTerminated := false, m_isTerminating := false,
    m_isThreadTaskFinished := false }

/-- A world around a freshly constructed runner. -/
def World.fresh (inbox : List External) : World :=
  { runner := TaskRunner.new, trace := [], inbox := inbox }

/-- Record a call into user code. -/
def World.log (w : World) (e : Event) : World :=
  { w with trace := e :: w.trace }

/-- The method `IsTerminated()`. -/
def IsTerminated (w : World) : Bool :=
  w.runner.m_isTerminated

/-- The method `TerminateTask()`: set `m_isTerminating`, notify, and call
`Terminate()` on the owned task if there is one. -/
def TerminateTask (w : World) : World :=
  let w1 := { w with runner := { w.runner with m_isTerminating := true } }
  match w1.runner.m_task with
  | some t => w1.log (Event.terminate t)
  | none => w1

/-- The method `AssignTask(task)`: store the task and notify. -/
def AssignTask (task : Option TaskId) (w : World) : World :=
  { w with runner := { w.runner with m_task := task } }

/-- The method `ResetTaskNonLocking()`. -/
def ResetTaskNonLocking (w : World) : World :=
  { w with runner := { w.runner with m_task := none, m_isThreadTaskFinished := false } }

/-- Apply the `TerminateTask()` call a callback made, if it made one. -/
def applyTerminate (terminates : Bool) (w : World) : World :=
  if terminates then TerminateTask w else w

/-- The method `RunThreadTask()`.  Returns the exception that escapes, if any. -/
def RunThreadTask (env : Env) (w : World) : World × Option Exn :=
  let finish (w : World) : World :=
    { w with runner := { w.runner with m_isThreadTaskFinished := true } }
  match w.runner.m_task with
  | none => (finish w, none)
  | some t =>
    let w1 := w.log (Event.run t)
    let r := env.Run w1.trace t
    let w2 := applyTerminate r.terminates w1
    match r.result with
    | Completion.value _ => (finish w2, none)
    | Completion.raised e =>
      let w3 := finish w2
      let w4 := w3.log (Event.onException t e)
      let r2 := env.OnException w4.trace t e
      let w5 := applyTerminate r2.terminates w4
      match r2.result with
      | Completion.value _ => (finish w5, none)
      | Completion.raised e2 => (w5, some e2)

/-- Deliver a call made by another thread. -/
def External.deliver : External → World → World
  | External.assignTask t, w => AssignTask t w
  | External.terminateTask, w => TerminateTask w

/-- The call `m_taskCV.wait(lock, pred)`: return once a task is present or
termination was requested, letting other threads make their calls while the
predicate is false; `none` when nobody will ever wake the loop. -/
def wait (w : World) : List External → Option World
  | [] =>
    if w.runner.m_task.isSome || w.runner.m_isTerminating then
      some { w with inbox := [] }
    else none
  | c :: rest =>
    if w.runner.m_task.isSome || w.runner.m_isTerminating then
      some { w with inbox := c :: rest }
    else wait (c.deliver w) rest

/-- The method `ThreadRunner(finishCallback)`, with one unit of fuel per
iteration of its `while` loop.  The completion callback receives the task by
value (`std::move(m_task)`), so the runner owns no task while it runs. -/
def ThreadRunner (env : Env) : Nat → World → Exit × World
  | 0, w => (Exit.running, w)
  | fuel + 1, w =>
    if w.runner.m_isTerminating then
      (Exit.returned, { w with runner := { w.runner with m_isTerminated := true } })
    else
      match wait w w.inbox with
      | none => (Exit.blocked, w)
      | some w0 =>
        if !w0.runner.m_isTerminating then
          match RunThreadTask env w0 with
          | (w1, some e) =>
            (Exit.raised e, { w1 with runner := { w1.runner with m_isTerminated := true } })
          | (w1, none) =>
            let given := w1.runner.m_task
            let w2 := { w1 with runner := { w1.runner with m_task := none } }
            let w3 := w2.log (Event.finished given)
            let r := env.finishCallback w3.trace given
            let w4 := applyTerminate r.terminates w3
            match r.result with
            | Completion.raised e =>
              (Exit.raised e, { w4 with runner := { w4.runner with m_isTerminated := true } })
            | Completion.value task =>
              let w5 := ResetTaskNonLocking w4
              let w6 := { w5 with runner := { w5.runner with m_task := task } }
              ThreadRunner env fuel w6
        else
          ThreadRunner env fuel w0

/-- Number of `Run()` calls on task `t` in a trace. -/
def runCount (t : TaskId) (tr : List Event) : Nat :=
  tr.count (Event.run t)

/-- Number of `Run()` calls on any task in a trace. -/
def totalRuns : List Event → Nat
  | [] => 0
  | Event.run _ :: tr => totalRuns tr + 1
  | _ :: tr => totalRuns tr

/-- Number of completion-callback invocations in a trace. -/
def hookCount : List Event → Nat
  | [] => 0
  | Event.finished _ :: tr => hookCount tr + 1
  | _ :: tr => hookCount tr

/-- Calls made on a runner, in order, before its loop is started. -/
def setup (calls : List External) (w : World) : World :=
  calls.foldl (fun acc c => c.deliver acc) w

/-- The `terminate` event a callback's `TerminateTask()` call produces while
the runner owns task `t`. -/
def terminateEvents (terminates : Bool) (t : TaskId) : List Event :=
  if terminates then [Event.terminate t] else []

/-- A task whose `Run()` raises exception 1 and whose `OnException` returns
normally, with a completion callback that returns no task. -/
def swallowingEnv : Env :=
  { Run := fun _ _ => { terminates := false, result := Completion.raised 1 },
    OnException := fun _ _ _ => { terminates := false, result := Completion.value () },
    finishCallback := fun _ _ => { terminates := false, result := Completion.value none } }

/-- A task whose `Run()` raises exception 1 and whose `OnException` re-raises
the exception it is given, with a completion callback that returns no task. -/
def rethrowingEnv : Env :=
  { Run := fun _ _ => { terminates := false, result := Completion.raised 1 },
    OnException := fun _ _ e => { terminates := false, result := Completion.raised e },
    finishCallback := fun _ _ => { terminates := false, result := Completion.value none } }

/-- Number of `OnException` calls in a trace. -/
def exceptionCalls : List Event → Nat
  | [] => 0
  | Event.onException _ _ :: tr => exceptionCalls tr + 1
  | _ :: tr => exceptionCalls tr

/-- The trace once `Run()` of the owned task `t` has ended, started from `w`. -/
def afterRun (env : Env) (w : World) (t : TaskId) : List Event :=
  terminateEvents (env.Run (Event.run t :: w.trace) t).terminates t ++ Event.run t :: w.trace

/-- The trace once `OnException(e)` of the owned task `t` has ended, after a
`Run()` started from `w` raised `e`. -/
def afterOnException (env : Env) (w : World) (t : TaskId) (e : Exn) : List Event :=
  terminateEvents
      (env.OnException (Event.onException t e :: afterRun env w t) t e).terminates t
    ++ Event.onException t e :: afterRun env w t

/-- The exception that leaves `RunThreadTask` after `OnException` ended. -/
def escaping : Completion Unit → Option Exn
  | Completion.value _ => none
  | Completion.raised e => some e

/-- The runner state in which the loop leaves or continues after the
completion callback, called with task `t` from the state `w1` in which
`RunThreadTask` ended, requested termination or not (`b`). -/
def afterHook (w1 : World) (t : TaskId) (b : Bool) (next : Option TaskId)
    (terminated finished : Bool) : World :=
  { runner :=
      { m_task := next, m_isTerminated := terminated,
        m_isTerminating := b || w1.runner.m_isTerminating,
        m_isThreadTaskFinished := finished },
    trace := Event.finished (some t) :: w1.trace,
    inbox := w1.inbox }

/-- An environment for the test "ignore exception": `Run()` raises exception 1,
`OnException` returns normally, the completion callback raises exception 2. -/
def ignoringEnv : Env :=
  { Run := fun _ _ => { terminates := false, result := Completion.raised 1 },
    OnException := fun _ _ _ => { terminates := false, result := Completion.value () },
    finishCallback := fun _ _ => { terminates := false, result := Completion.raised 2 } }

/-- No `Run()` call and no completion-callback invocation among the events. -/
def quiet : List Event → Bool
  | [] => true
  | Event.run _ :: _ => false
  | Event.finished _ :: _ => false
  | _ :: tr => quiet tr

/-- The task whose `Run()` the loop has called and not yet handed to the
completion callback, read off a trace (newest event first). -/
def pendingRun : List Event → Option TaskId
  | [] => none
  | Event.run t :: _ => some t
  | Event.finished _ :: _ => none
  | _ :: tr => pendingRun tr

/-- Every completion-callback invocation in the trace received a non-null
task, the one whose `Run()` was the last one called before it, with no other
callback invocation in between. -/
def handoffOk : List Event → Bool
  | [] => true
  | Event.finished x :: older =>
    decide (x ≠ none ∧ pendingRun older = x) && handoffOk older
  | _ :: older => handoffOk older

/-- The oldest completion-callback invocation of a trace: the task it
received and the events that came before it. -/
def firstHook : List Event → Option (Option TaskId × List Event)
  | [] => none
  | e :: older =>
    match firstHook older with
    | some r => some r
    | none =>
      match e with
      | Event.finished x => some (x, older)
      | _ => none

/-- An environment for the test "run once": `Run()` returns normally and the
completion callback calls `TerminateTask()` and returns no task. -/
def runOnceEnv : Env :=
  { Run := fun _ _ => { terminates := false, result := Completion.value () },
    OnException := fun _ _ e => { terminates := false, result := Completion.raised e },
    finishCallback := fun _ _ => { terminates := true, result := Completion.value none } }

/-- A task that lets the loop go on: its `Run()` never calls `TerminateTask()`
on the runner, and it either returns normally or raises an exception that the
task's `OnException` swallows, without calling `TerminateTask()` either. -/
def completes (env : Env) (t : TaskId) : Prop :=
  ∀ h, (env.Run h t).terminates = false
    ∧ ((env.Run h t).result = Completion.value ()
        ∨ ∃ e, (env.Run h t).result = Completion.raised e
            ∧ ∀ h2, env.OnException h2 t e
                = { terminates := false, result := Completion.value () })

/-- An environment for the test "run multiple times": `Run()` returns
normally; the completion callback hands the task back on its first five
invocations, and on the sixth calls `TerminateTask()` and returns no task. -/
def runAgainEnv : Env :=
  { Run := fun _ _ => { terminates := false, result := Completion.value () },
    OnException := fun _ _ e => { terminates := false, result := Completion.raised e },
    finishCallback := fun h task =>
      if hookCount h ≤ 5 then { terminates := false, result := Completion.value task }
      else { terminates := true, result := Completion.value none } }

/-- An environment in which the completion callback calls `TerminateTask()`
and hands task 8 to the runner: `Run()` returns normally. -/
def handOverEnv : Env :=
  { Run := fun _ _ => { terminates := false, result := Completion.value () },
    OnException := fun _ _ e => { terminates := false, result := Completion.raised e },
    finishCallback := fun _ _ => { terminates := true, result := Completion.value (some 8) } }

/-- The loop started in `w` reaches the completion callback in each of its
first `N + 1` iterations: at the head of iteration `j + 1` (the state the loop
is in after `j` iterations) no exception leaves `RunThreadTask`, and, in the
first `N` iterations, termination has not been requested when `RunThreadTask`
ends. -/
def reachesHook (env : Env) (w : World) (N : Nat) : Prop :=
  ∀ j, j ≤ N →
    (RunThreadTask env (ThreadRunner env j w).2).2 = none
      ∧ (j < N →
          (RunThreadTask env (ThreadRunner env j w).2).1.runner.m_isTerminating = false)

/-- The callback of the test "run multiple times" with a task whose `Run()`
raises exception 1 and whose `OnException` re-raises it. -/
def rethrowAgainEnv : Env :=
  { Run := fun _ _ => { terminates := false, result := Completion.raised 1 },
    OnException := fun _ _ e => { terminates := false, result := Completion.raised e },
    finishCallback := runAgainEnv.finishCallback }

/-- The callback of the test "run multiple times" with a task during whose
first `Run()` `TerminateTask()` is called on the runner. -/
def stoppedWhileRunningEnv : Env :=
  { Run := fun _ _ => { terminates := true, result := Completion.value () },
    OnException := fun _ _ e => { terminates := false, result := Completion.raised e },
    finishCallback := runAgainEnv.finishCallback }

/-- A task whose `Run()` returns normally twice and raises exception 1 from
the third call on, re-raised by `OnException`, with a completion callback that
hands the task back on its first invocation and on the second calls
`TerminateTask()` and returns no task. -/
def thirdRunRaisesEnv : Env :=
  { Run := fun h _ =>
      if totalRuns h ≤ 2 then { terminates := false, result := Completion.value () }
      else { terminates := false, result := Completion.raised 1 },
    OnException := fun _ _ e => { terminates := false, result := Completion.raised e },
    finishCallback := fun h task =>
      if hookCount h ≤ 1 then { terminates := false, result := Completion.value task }
      else { terminates := true, result := Completion.value none } }

/-! ## The `ThreadPool` dispatcher -/

/-- Modelled from the spec: `ThreadPool.hpp` is not among the sources (only
its tests are).  The pool of section 4.3: the configured maximum concurrency,
the ordered collection of workers (for each worker thread, the task its runner
owns, `none` when it is idle), the FIFO pending queue, the finish-queue, and a
record of which worker each dispatched task runs on (newest first). -/
structure ThreadPool where
  maxPoolSize : Nat
  workers : List (Option TaskId)
  pending : List TaskId
  finishQueue : List TaskId
  ranOn : List (Nat × TaskId)
  deriving DecidableEq, Repr

/-- Modelled from the spec: a pool "created with `N` fixed at construction",
whose threads "are spawned lazily": no worker yet. -/
def ThreadPool.new (N : Nat) : ThreadPool :=
  { maxPoolSize := N, workers := [], pending := [], finishQueue := [], ranOn := [] }

/-- Modelled from the spec: the position of the first idle worker, if any. -/
def findIdle : List (Option TaskId) → Option Nat
  | [] => none
  | none :: _ => some 0
  | some _ :: rest => (findIdle rest).map (fun i => i + 1)

/-- Modelled from the spec: `ThreadPool.AddTask`, "dispatch policy, in order:
(1) if an existing worker is idle, assign directly; (2) else if live-thread
count < configured maximum, spawn a new thread running a fresh `TaskRunner`'s
loop and assign the task to it; (3) else append to the FIFO pending queue". -/
def ThreadPool.AddTask (t : TaskId) (p : ThreadPool) : ThreadPool :=
  match findIdle p.workers with
  | some i => { p with workers := p.workers.set i (some t), ranOn := (i, t) :: p.ranOn }
  | none =>
    if p.workers.length < p.maxPoolSize then
      { p with workers := p.workers ++ [some t], ranOn := (p.workers.length, t) :: p.ranOn }
    else
      { p with pending := p.pending ++ [t] }

/-- Modelled from the spec: the pool's completion hook, run when the task of
worker `i` finishes: "first it is pushed onto the finish-queue; then, if the
pending queue is non-empty, the head task is popped and returned for immediate
re-assignment to the same runner; otherwise nothing is returned and the runner
returns to `Idle`". -/
def ThreadPool.taskFinished (i : Nat) (p : ThreadPool) : ThreadPool :=
  match p.workers.get? i with
  | some (some t) =>
    match p.pending with
    | [] =>
      { p with workers := p.workers.set i none, finishQueue := p.finishQueue ++ [t] }
    | next :: rest =>
      { p with workers := p.workers.set i (some next), pending := rest,
               finishQueue := p.finishQueue ++ [t], ranOn := (i, next) :: p.ranOn }
  | _ => p

/-- Modelled from the spec: `ThreadPool.Update`, which "drains the
finish-queue". -/
def ThreadPool.Update (p : ThreadPool) : ThreadPool :=
  { p with finishQueue := [] }

/-- Something that happens to a pool: a task is submitted, the task running on
a worker completes, or the controlling thread calls `Update`. -/
inductive PoolStep where
  | addTask (t : TaskId)
  | taskFinished (worker : Nat)
  | update
  deriving DecidableEq, Repr

/-- One step of a pool. -/
def PoolStep.apply : PoolStep → ThreadPool → ThreadPool
  | PoolStep.addTask t, p => p.AddTask t
  | PoolStep.taskFinished i, p => p.taskFinished i
  | PoolStep.update, p => p.Update

/-- A sequence of `AddTask` calls, task completions and `Update` calls. -/
def ThreadPool.run (steps : List PoolStep) (p : ThreadPool) : ThreadPool :=
  steps.foldl (fun acc s => s.apply acc) p

/-- The pool invariant: no more workers than the maximum, the maximum itself
never changes, and every task ran on one of the workers. -/
def ThreadPool.bounded (N : Nat) (p : ThreadPool) : Prop :=
  p.maxPoolSize = N ∧ p.workers.length ≤ N ∧ ∀ x ∈ p.ranOn, x.1 < p.workers.length

/-! ## The `TickingTask` loop -/

/-- Modelled from the spec: `TickingTask.hpp` is not among the sources (only
its test is).  The calls the `Run()` loop of a ticking task makes: the wait
primitive `SleepFor(duration)` and the payload `Tick()`. -/
inductive TickEvent where
  | sleepFor (d : Int)
  | tick
  deriving DecidableEq, Repr

/-- Modelled from the spec: the state of section 4.4, "`elapsed` accumulator",
"`tickEnabled` flag", "`updateInterval`, `tickInterval`", over the integer
duration type the test uses, with the calls made so far (newest first). -/
structure TickingTask where
  updateInterval : Int
  tickInterval : Int
  elapsed : Int
  tickEnabled : Bool
  calls : List TickEvent
  deriving DecidableEq, Repr

/-- Modelled from the spec: a task constructed with an update interval and a
tick interval, in tick-interval mode, `elapsed` "reset to zero on
construction". -/
def TickingTask.withInterval (update tick : Int) : TickingTask :=
  { updateInterval := update, tickInterval := tick, elapsed := 0, tickEnabled := true,
    calls := [] }

/-- Modelled from the spec: `SetInterval(update, tick)` "sets both durations
and implicitly enables tick-interval mode". -/
def TickingTask.SetInterval (update tick : Int) (s : TickingTask) : TickingTask :=
  { s with updateInterval := update, tickInterval := tick, tickEnabled := true }

/-- Modelled from the spec: `DisableTickInterval()` "sets `tickEnabled` to
false". -/
def TickingTask.DisableTickInterval (s : TickingTask) : TickingTask :=
  { s with tickEnabled := false }

/-- Modelled from the spec: one iteration of the `Run()` loop of a task that
is not terminated: "if `tickEnabled` is false: call `Tick()` immediately, no
wait"; "if `tickEnabled` is true: call `SleepFor(updateInterval)`, add
`updateInterval` to `elapsed`; if `elapsed >= tickInterval`, call `Tick()` and
reset `elapsed` to zero". -/
def TickingTask.iteration (s : TickingTask) : TickingTask :=
  if s.tickEnabled then
    let s1 := { s with calls := TickEvent.sleepFor s.updateInterval :: s.calls,
                       elapsed := s.elapsed + s.updateInterval }
    if s1.elapsed ≥ s1.tickInterval then
      { s1 with calls := TickEvent.tick :: s1.calls, elapsed := 0 }
    else s1
  else
    { s with calls := TickEvent.tick :: s.calls }

/-- Modelled from the spec: the `Run()` loop up to the moment `n` iterations
have completed (the termination flag was not seen set before). -/
def TickingTask.iterations : Nat → TickingTask → TickingTask
  | 0, s => s
  | n + 1, s => (TickingTask.iterations n s).iteration

/-- Number of `SleepFor` calls among the calls. -/
def sleepCount : List TickEvent → Nat
  | [] => 0
  | TickEvent.sleepFor _ :: cs => sleepCount cs + 1
  | TickEvent.tick :: cs => sleepCount cs

/-- Number of `Tick()` calls among the calls. -/
def tickCount : List TickEvent → Nat
  | [] => 0
  | TickEvent.tick :: cs => tickCount cs + 1
  | TickEvent.sleepFor _ :: cs => tickCount cs

/-! ## Facts about the runner -/

theorem wait_ready (w : World) (inbox : List External)
    (h : (w.runner.m_task.isSome || w.runner.m_isTerminating) = true) :
    wait w inbox = some { w with inbox := inbox } := by
  cases inbox <;> simp [wait, h]

theorem deliver_terminating (c : External) (w : World)
    (h : w.runner.m_isTerminating = true) : (c.deliver w).runner.m_isTerminating = true := by
  cases c with
  | assignTask t => simpa [External.deliver, AssignTask] using h
  | terminateTask =>
    simp only [External.deliver, TerminateTask]
    cases w.runner.m_task <;> simp [World.log]

theorem setup_terminating (calls : List External) (w : World)
    (h : w.runner.m_isTerminating = true) : (setup calls w).runner.m_isTerminating = true := by
  induction calls generalizing w with
  | nil => simpa [setup] using h
  | cons c cs ih => exact ih (c.deliver w) (deliver_terminating c w h)

theorem terminateTask_terminating (w : World) :
    (TerminateTask w).runner.m_isTerminating = true := by
  simp only [TerminateTask]
  cases w.runner.m_task <;> simp [World.log]

theorem setup_mem_terminating (calls : List External) (w : World)
    (h : External.terminateTask ∈ calls) : (setup calls w).runner.m_isTerminating = true := by
  induction calls generalizing w with
  | nil => simp at h
  | cons c cs ih =>
    rcases List.mem_cons.mp h with hc | hc
    · subst hc
      exact setup_terminating cs _ (terminateTask_terminating w)
    · exact ih (c.deliver w) hc

theorem deliver_runs (c : External) (w : World) :
    totalRuns (c.deliver w).trace = totalRuns w.trace
      ∧ hookCount (c.deliver w).trace = hookCount w.trace := by
  cases c with
  | assignTask t => simp [External.deliver, AssignTask]
  | terminateTask =>
    simp only [External.deliver, TerminateTask]
    cases w.runner.m_task <;> simp [World.log, totalRuns, hookCount]

theorem setup_runs (calls : List External) (w : World) :
    totalRuns (setup calls w).trace = totalRuns w.trace
      ∧ hookCount (setup calls w).trace = hookCount w.trace := by
  induction calls generalizing w with
  | nil => simp [setup]
  | cons c cs ih =>
    have h1 := ih (c.deliver w)
    have h2 := deliver_runs c w
    exact ⟨h1.1.trans h2.1, h1.2.trans h2.2⟩

theorem threadRunner_terminating (env : Env) (fuel : Nat) (w : World)
    (h : w.runner.m_isTerminating = true) :
    ThreadRunner env (fuel + 1) w
      = (Exit.returned, { w with runner := { w.runner with m_isTerminated := true } }) := by
  simp [ThreadRunner, h]

theorem applyTerminate_owned (b : Bool) (w : World) (t : TaskId)
    (ht : w.runner.m_task = some t) :
    (applyTerminate b w).trace = terminateEvents b t ++ w.trace
      ∧ (applyTerminate b w).runner.m_task = some t
      ∧ (applyTerminate b w).runner.m_isTerminated = w.runner.m_isTerminated
      ∧ (applyTerminate b w).inbox = w.inbox := by
  cases b <;> simp [applyTerminate, TerminateTask, terminateEvents, ht, World.log]

theorem hookCount_terminateEvents (b : Bool) (t : TaskId) (tr : List Event) :
    hookCount (terminateEvents b t ++ tr) = hookCount tr := by
  cases b <;> simp [terminateEvents, hookCount]

theorem exceptionCalls_terminateEvents (b : Bool) (t : TaskId) (tr : List Event) :
    exceptionCalls (terminateEvents b t ++ tr) = exceptionCalls tr := by
  cases b <;> simp [terminateEvents, exceptionCalls]

/-- `RunThreadTask` on an owned task whose `Run()` returns normally. -/
theorem runThreadTask_value (env : Env) (w : World) (t : TaskId)
    (ht : w.runner.m_task = some t)
    (hr : (env.Run (Event.run t :: w.trace) t).result = Completion.value ()) :
    (RunThreadTask env w).2 = none
      ∧ (RunThreadTask env w).1.trace = afterRun env w t
      ∧ (RunThreadTask env w).1.runner.m_task = some t
      ∧ (RunThreadTask env w).1.runner.m_isTerminated = w.runner.m_isTerminated
      ∧ (RunThreadTask env w).1.inbox = w.inbox := by
  have h1 := applyTerminate_owned (env.Run (Event.run t :: w.trace) t).terminates
    (w.log (Event.run t)) t (by simpa [World.log] using ht)
  simp only [RunThreadTask, ht, World.log] at h1 ⊢
  rw [hr]
  simpa [afterRun, World.log] using h1

/-- `RunThreadTask` on an owned task whose `Run()` raises `e`. -/
theorem runThreadTask_raised (env : Env) (w : World) (t : TaskId) (e : Exn)
    (ht : w.runner.m_task = some t)
    (hr : (env.Run (Event.run t :: w.trace) t).result = Completion.raised e) :
    (RunThreadTask env w).2
        = escaping (env.OnException (Event.onException t e :: afterRun env w t) t e).result
      ∧ (RunThreadTask env w).1.trace = afterOnException env w t e
      ∧ (RunThreadTask env w).1.runner.m_task = some t
      ∧ (RunThreadTask env w).1.runner.m_isTerminated = w.runner.m_isTerminated
      ∧ (RunThreadTask env w).1.inbox = w.inbox := by
  have h1 := applyTerminate_owned (env.Run (Event.run t :: w.trace) t).terminates
    (w.log (Event.run t)) t (by simpa [World.log] using ht)
  obtain ⟨h1a, h1b, h1c, h1d⟩ := h1
  simp only [World.log] at h1a h1b h1c h1d
  simp only [RunThreadTask, ht, World.log, hr]
  rw [h1a]
  have h2 := applyTerminate_owned
    (env.OnException (Event.onException t e :: afterRun env w t) t e).terminates
    { runner := { (applyTerminate (env.Run (Event.run t :: w.trace) t).terminates
          { runner := w.runner, trace := Event.run t :: w.trace, inbox := w.inbox }).runner with
        m_isThreadTaskFinished := true },
      trace := Event.onException t e :: afterRun env w t,
      inbox := (applyTerminate (env.Run (Event.run t :: w.trace) t).terminates
          { runner := w.runner, trace := Event.run t :: w.trace, inbox := w.inbox }).inbox }
    t (by simpa using h1b)
  obtain ⟨h2a, h2b, h2c, h2d⟩ := h2
  simp only [afterRun] at h2a h2b h2c h2d ⊢
  cases hx : (env.OnException (Event.onException t e ::
      (terminateEvents (env.Run (Event.run t :: w.trace) t).terminates t
        ++ Event.run t :: w.trace)) t e).result with
  | value u =>
    simp only [hx, escaping]
    refine ⟨trivial, ?_, ?_, ?_, ?_⟩
    · simpa [afterOnException, afterRun] using h2a
    · simpa using h2b
    · simpa [h1c] using h2c
    · simpa [h1d] using h2d
  | raised e2 =>
    simp only [hx, escaping]
    refine ⟨trivial, ?_, ?_, ?_, ?_⟩
    · simpa [afterOnException, afterRun] using h2a
    · simpa using h2b
    · simpa [h1c] using h2c
    · simpa [h1d] using h2d

theorem wait_owned (w : World) (t : TaskId) (ht : w.runner.m_task = some t) :
    wait w w.inbox = some w := by
  rw [wait_ready w w.inbox (by simp [ht])]

theorem applyTerminate_idle_eq (b : Bool) (w : World) (ht : w.runner.m_task = none) :
    applyTerminate b w
      = { w with runner := { w.runner with m_isTerminating := b || w.runner.m_isTerminating } } := by
  cases w with
  | mk r tr ib =>
    cases r
    cases b <;> simp_all [applyTerminate, TerminateTask]

/-- One iteration of the loop that reaches the completion callback. -/
theorem threadRunner_hook (env : Env) (fuel : Nat) (w w1 : World) (t : TaskId)
    (ht : w.runner.m_task = some t) (hlive : w.runner.m_isTerminating = false)
    (hrt : RunThreadTask env w = (w1, none)) (h1 : w1.runner.m_task = some t) :
    ThreadRunner env (fuel + 1) w
      = match (env.finishCallback (Event.finished (some t) :: w1.trace) (some t)).result with
        | Completion.raised e =>
          (Exit.raised e,
            afterHook w1 t (env.finishCallback (Event.finished (some t) :: w1.trace) (some t)).terminates
              none true w1.runner.m_isThreadTaskFinished)
        | Completion.value next =>
          ThreadRunner env fuel
            (afterHook w1 t (env.finishCallback (Event.finished (some t) :: w1.trace) (some t)).terminates
              next w1.runner.m_isTerminated false) := by
  simp only [ThreadRunner, hlive, wait_owned w t ht, hrt, h1, World.log]
  rw [applyTerminate_idle_eq _ _ rfl]
  cases (env.finishCallback (Event.finished (some t) :: w1.trace) (some t)).result <;>
    simp [afterHook, ResetTaskNonLocking]

/-- C3: on a fresh runner that received any sequence of `AssignTask` and
`TerminateTask` calls containing at least one `TerminateTask` before the loop
starts, `ThreadRunner` returns normally (whatever other threads do later), it
calls `Run()` on no task, it does not invoke the completion callback, the
trace is the one the setup calls left, and `IsTerminated()` is true
afterwards. -/
theorem C3_terminate_before_start (env : Env) (fuel : Nat) (inbox : List External)
    (calls : List External) (h : External.terminateTask ∈ calls) :
    (ThreadRunner env (fuel + 1) (setup calls (World.fresh inbox))).1 = Exit.returned
      ∧ totalRuns (ThreadRunner env (fuel + 1) (setup calls (World.fresh inbox))).2.trace = 0
      ∧ hookCount (ThreadRunner env (fuel + 1) (setup calls (World.fresh inbox))).2.trace = 0
      ∧ (ThreadRunner env (fuel + 1) (setup calls (World.fresh inbox))).2.trace
          = (setup calls (World.fresh inbox)).trace
      ∧ IsTerminated (ThreadRunner env (fuel + 1) (setup calls (World.fresh inbox))).2 = true := by
  have ht := setup_mem_terminating calls (World.fresh inbox) h
  have hr := setup_runs calls (World.fresh inbox)
  rw [threadRunner_terminating env fuel _ ht]
  refine ⟨rfl, ?_, ?_, rfl, rfl⟩
  · simpa [World.fresh, totalRuns] using hr.1
  · simpa [World.fresh, hookCount] using hr.2

/-- C3 at the order of the test `RunAfterTerminated`: `TerminateTask()`, then
`AssignTask` of task 7, then the loop. -/
theorem C3_terminate_before_start_witness :
    (External.terminateTask ∈ [External.terminateTask, External.assignTask (some 7)])
      ∧ (ThreadRunner rethrowingEnv (0 + 1)
          (setup [External.terminateTask, External.assignTask (some 7)] (World.fresh []))).1
          = Exit.returned
      ∧ totalRuns (ThreadRunner rethrowingEnv (0 + 1)
          (setup [External.terminateTask, External.assignTask (some 7)] (World.fresh []))).2.trace
          = 0 :=
  ⟨by decide,
   (C3_terminate_before_start rethrowingEnv 0 [] _ (by decide)).1,
   (C3_terminate_before_start rethrowingEnv 0 [] _ (by decide)).2.1⟩

/-- C4: when the owned task's `Run()` raises `e` and its `OnException`
re-raises the exception it is given, `ThreadRunner` exits by raising `e`, the
completion callback is not invoked, the trace ends with the `OnException`
call, and `IsTerminated()` is true afterwards. -/
theorem C4_rethrow_terminates_runner (env : Env) (fuel : Nat) (w : World) (t : TaskId) (e : Exn)
    (ht : w.runner.m_task = some t) (hlive : w.runner.m_isTerminating = false)
    (hrun : (env.Run (Event.run t :: w.trace) t).result = Completion.raised e)
    (hexc : ∀ h x, (env.OnException h t x).result = Completion.raised x) :
    (ThreadRunner env (fuel + 1) w).1 = Exit.raised e
      ∧ hookCount (ThreadRunner env (fuel + 1) w).2.trace = hookCount w.trace
      ∧ (ThreadRunner env (fuel + 1) w).2.trace = afterOnException env w t e
      ∧ IsTerminated (ThreadRunner env (fuel + 1) w).2 = true := by
  obtain ⟨h2, htr, -, -, -⟩ := runThreadTask_raised env w t e ht hrun
  rw [hexc] at h2
  rcases hrt : RunThreadTask env w with ⟨w1, x⟩
  rw [hrt] at h2 htr
  simp only [escaping] at h2 htr
  subst h2
  simp only [ThreadRunner, hlive, wait_owned w t ht, hrt, IsTerminated]
  refine ⟨by simp, ?_, by simpa using htr, by simp⟩
  simp only [Bool.false_eq_true, if_false, Bool.not_false, if_true, htr]
  simp [afterOnException, afterRun, hookCount_terminateEvents, hookCount]

/-- C4 on the test's scenario: task 7 raises exception 1 and re-raises it from
`OnException`. -/
theorem C4_rethrow_terminates_runner_witness :
    (ThreadRunner rethrowingEnv (0 + 1) (AssignTask (some 7) (World.fresh []))).1 = Exit.raised 1
      ∧ IsTerminated (ThreadRunner rethrowingEnv (0 + 1)
          (AssignTask (some 7) (World.fresh []))).2 = true :=
  ⟨(C4_rethrow_terminates_runner rethrowingEnv 0 (AssignTask (some 7) (World.fresh [])) 7 1
      rfl rfl rfl (fun _ _ => rfl)).1,
   (C4_rethrow_terminates_runner rethrowingEnv 0 (AssignTask (some 7) (World.fresh [])) 7 1
      rfl rfl rfl (fun _ _ => rfl)).2.2.2⟩

/-- C8, as stated, fails: task 7 raises exception 1 from `Run()`, its
`OnException` returns normally, and `RunThreadTask` returns normally, no
exception leaving it. -/
theorem C8_counterexample :
    (swallowingEnv.Run [Event.run 7] 7).result = Completion.raised 1
      ∧ (RunThreadTask swallowingEnv (AssignTask (some 7) (World.fresh []))).2 = none
      ∧ (RunThreadTask swallowingEnv (AssignTask (some 7) (World.fresh []))).1.trace
          = [Event.onException 7 1, Event.run 7] := by
  decide

/-- C8, amended: when the owned task's `Run()` raises `e`, `RunThreadTask`
calls the task's `OnException` with `e`, once, right after `Run()`, and the
exception that leaves `RunThreadTask` is the one `OnException` raises: none
when `OnException` returns normally, `e` when it re-raises `e`. -/
theorem C8_onException_decides (env : Env) (w : World) (t : TaskId) (e : Exn)
    (ht : w.runner.m_task = some t)
    (hrun : (env.Run (Event.run t :: w.trace) t).result = Completion.raised e) :
    (RunThreadTask env w).1.trace = afterOnException env w t e
      ∧ exceptionCalls (RunThreadTask env w).1.trace = exceptionCalls w.trace + 1
      ∧ (RunThreadTask env w).2
          = escaping (env.OnException (Event.onException t e :: afterRun env w t) t e).result
      ∧ ((env.OnException (Event.onException t e :: afterRun env w t) t e).result
            = Completion.value () → (RunThreadTask env w).2 = none)
      ∧ ((env.OnException (Event.onException t e :: afterRun env w t) t e).result
            = Completion.raised e → (RunThreadTask env w).2 = some e) := by
  obtain ⟨h2, htr, -, -, -⟩ := runThreadTask_raised env w t e ht hrun
  refine ⟨htr, ?_, h2, ?_, ?_⟩
  · rw [htr]
    simp [afterOnException, afterRun, exceptionCalls_terminateEvents, exceptionCalls]
  · intro hv
    rw [h2, hv]; rfl
  · intro hv
    rw [h2, hv]; rfl

/-- C8 amended, on a task that re-raises: exception 1 leaves `RunThreadTask`. -/
theorem C8_onException_decides_witness :
    (RunThreadTask rethrowingEnv (AssignTask (some 7) (World.fresh []))).2 = some 1 :=
  (C8_onException_decides rethrowingEnv (AssignTask (some 7) (World.fresh [])) 7 1
    rfl rfl).2.2.2.2 rfl

/-- C9, as stated, fails: after the loop left by an exception from task 7 the
runner is terminated, still owns task 7 and has `m_isTerminating` false; a
`TerminateTask()` then sets the terminating flag and calls `Terminate()` on
task 7. -/
theorem C9_counterexample :
    IsTerminated (ThreadRunner rethrowingEnv 1 (AssignTask (some 7) (World.fresh []))).2 = true
      ∧ (ThreadRunner rethrowingEnv 1
          (AssignTask (some 7) (World.fresh []))).2.runner.m_isTerminating = false
      ∧ (TerminateTask (ThreadRunner rethrowingEnv 1
          (AssignTask (some 7) (World.fresh []))).2).runner.m_isTerminating = true
      ∧ (TerminateTask (ThreadRunner rethrowingEnv 1
          (AssignTask (some 7) (World.fresh []))).2).trace
          = Event.terminate 7 :: (ThreadRunner rethrowingEnv 1
              (AssignTask (some 7) (World.fresh []))).2.trace := by
  decide

/-- C9, amended: on a terminated runner `TerminateTask()` leaves the
terminated flag and the owned task unchanged and sets the terminating flag;
it calls `Terminate()` on the owned task when there is one and nothing
otherwise; so it changes nothing at all when termination had already been
requested and no task is owned. -/
theorem C9_terminateTask_on_terminated (w : World) (h : IsTerminated w = true) :
    IsTerminated (TerminateTask w) = true
      ∧ (TerminateTask w).runner.m_task = w.runner.m_task
      ∧ (TerminateTask w).runner.m_isTerminating = true
      ∧ (∀ t, w.runner.m_task = some t → (TerminateTask w).trace = Event.terminate t :: w.trace)
      ∧ (w.runner.m_task = none → (TerminateTask w).trace = w.trace)
      ∧ (w.runner.m_isTerminating = true → w.runner.m_task = none → TerminateTask w = w) := by
  simp only [IsTerminated] at h
  cases hm : w.runner.m_task with
  | none =>
    refine ⟨?_, ?_, ?_, ?_, ?_, ?_⟩
    · simp [TerminateTask, hm, IsTerminated, h]
    · simp [TerminateTask, hm]
    · simp [TerminateTask, hm]
    · simp
    · simp [TerminateTask, hm]
    · intro ht _
      cases w with
      | mk r tr ib =>
        cases r
        simp_all [TerminateTask]
  | some t =>
    simp [TerminateTask, hm, IsTerminated, h, World.log]

/-- C9 amended, on the runner of the test `RunAssignedTask` after its loop
returned: the second `TerminateTask()` changes nothing. -/
theorem C9_terminateTask_on_terminated_witness :
    IsTerminated (ThreadRunner swallowingEnv 1 (TerminateTask (World.fresh []))).2 = true
      ∧ TerminateTask (ThreadRunner swallowingEnv 1 (TerminateTask (World.fresh []))).2
          = (ThreadRunner swallowingEnv 1 (TerminateTask (World.fresh []))).2 :=
  ⟨by decide,
   (C9_terminateTask_on_terminated
      (ThreadRunner swallowingEnv 1 (TerminateTask (World.fresh []))).2 (by decide)).2.2.2.2.2
      (by decide) (by decide)⟩

/-- C5: when the owned task's `Run()` raises `e1` and its `OnException`
returns normally, one iteration of the loop calls `OnException` once, with
`e1`, and then the completion callback once, with that task; and if the
callback raises `e2`, `ThreadRunner` exits by raising `e2` with
`IsTerminated()` true, nothing more having been called. -/
theorem C5_swallowed_then_hook_raises (env : Env) (fuel : Nat) (w : World) (t : TaskId)
    (e1 : Exn) (ht : w.runner.m_task = some t) (hlive : w.runner.m_isTerminating = false)
    (hrun : (env.Run (Event.run t :: w.trace) t).result = Completion.raised e1)
    (hexc : (env.OnException (Event.onException t e1 :: afterRun env w t) t e1).result
      = Completion.value ()) :
    (ThreadRunner env 1 w).2.trace = Event.finished (some t) :: afterOnException env w t e1
      ∧ exceptionCalls (ThreadRunner env 1 w).2.trace = exceptionCalls w.trace + 1
      ∧ hookCount (ThreadRunner env 1 w).2.trace = hookCount w.trace + 1
      ∧ ∀ e2,
          (env.finishCallback (Event.finished (some t) :: afterOnException env w t e1)
              (some t)).result = Completion.raised e2 →
          (ThreadRunner env (fuel + 1) w).1 = Exit.raised e2
            ∧ (ThreadRunner env (fuel + 1) w).2.trace
                = Event.finished (some t) :: afterOnException env w t e1
            ∧ IsTerminated (ThreadRunner env (fuel + 1) w).2 = true := by
  obtain ⟨h2, htr, h1, -, -⟩ := runThreadTask_raised env w t e1 ht hrun
  rw [hexc] at h2
  rcases hrt : RunThreadTask env w with ⟨w1, x⟩
  rw [hrt] at h2 htr h1
  simp only [escaping] at h2 htr h1
  subst h2
  have key : (ThreadRunner env 1 w).2.trace
      = Event.finished (some t) :: afterOnException env w t e1 := by
    rw [threadRunner_hook env 0 w w1 t ht hlive hrt h1, htr]
    cases (env.finishCallback (Event.finished (some t) :: afterOnException env w t e1)
        (some t)).result <;> simp [afterHook, ThreadRunner, htr]
  refine ⟨key, ?_, ?_, ?_⟩
  · rw [key]
    simp [afterOnException, afterRun, exceptionCalls_terminateEvents, exceptionCalls]
  · rw [key]
    simp [afterOnException, afterRun, hookCount_terminateEvents, hookCount]
  · intro e2 he2
    rw [threadRunner_hook env fuel w w1 t ht hlive hrt h1, htr, he2]
    simp [afterHook, IsTerminated, htr]

/-- C5 on the test's scenario: task 7 raises exception 1, swallows it, and the
completion callback raises exception 2. -/
theorem C5_swallowed_then_hook_raises_witness :
    (ThreadRunner ignoringEnv 1 (AssignTask (some 7) (World.fresh []))).2.trace
        = [Event.finished (some 7), Event.onException 7 1, Event.run 7]
      ∧ (ThreadRunner ignoringEnv (0 + 1) (AssignTask (some 7) (World.fresh []))).1
        = Exit.raised 2 :=
  ⟨(C5_swallowed_then_hook_raises ignoringEnv 0 (AssignTask (some 7) (World.fresh [])) 7 1
      rfl rfl rfl rfl).1,
   ((C5_swallowed_then_hook_raises ignoringEnv 0 (AssignTask (some 7) (World.fresh [])) 7 1
      rfl rfl rfl rfl).2.2.2 2 rfl).1⟩

theorem deliver_terminated (c : External) (w : World) :
    (c.deliver w).runner.m_isTerminated = w.runner.m_isTerminated := by
  cases c with
  | assignTask t => simp [External.deliver, AssignTask]
  | terminateTask =>
    simp only [External.deliver, TerminateTask]
    cases w.runner.m_task <;> simp [World.log]

theorem applyTerminate_terminated (b : Bool) (w : World) :
    (applyTerminate b w).runner.m_isTerminated = w.runner.m_isTerminated := by
  cases b
  · simp [applyTerminate]
  · simp only [applyTerminate, TerminateTask, if_true]
    cases w.runner.m_task <;> simp [World.log]

theorem wait_terminated (w w0 : World) (inbox : List External) (h : wait w inbox = some w0) :
    w0.runner.m_isTerminated = w.runner.m_isTerminated := by
  induction inbox generalizing w with
  | nil =>
    simp only [wait] at h
    split at h
    · cases h; rfl
    · cases h
  | cons c rest ih =>
    simp only [wait] at h
    split at h
    · cases h; rfl
    · rw [ih (c.deliver w) h, deliver_terminated]

theorem runThreadTask_terminated (env : Env) (w : World) :
    (RunThreadTask env w).1.runner.m_isTerminated = w.runner.m_isTerminated := by
  simp only [RunThreadTask]
  split
  · rfl
  · split
    · simp [applyTerminate_terminated, World.log]
    · split <;> simp [applyTerminate_terminated, World.log]

/-- The loop leaves only with the terminated flag set. -/
theorem threadRunner_stops_terminated (env : Env) (fuel : Nat) (w : World) :
    ((ThreadRunner env fuel w).1 = Exit.returned ∨ ∃ e, (ThreadRunner env fuel w).1 = Exit.raised e)
      → (ThreadRunner env fuel w).2.runner.m_isTerminated = true := by
  induction fuel generalizing w with
  | zero => simp [ThreadRunner]
  | succ n ih =>
    simp only [ThreadRunner]
    split
    · simp
    · split
      · simp
      · split
        · split
          · simp
          · split
            · simp
            · exact ih _
        · exact ih _

/-- The loop never clears the terminated flag. -/
theorem threadRunner_keeps_terminated (env : Env) (fuel : Nat) (w : World)
    (h : w.runner.m_isTerminated = true) :
    (ThreadRunner env fuel w).2.runner.m_isTerminated = true := by
  induction fuel generalizing w with
  | zero => simpa [ThreadRunner] using h
  | succ n ih =>
    simp only [ThreadRunner]
    split
    · simp
    · split
      · exact h
      · rename_i w0 hw
        have h0 := wait_terminated w w0 w.inbox hw
        split
        · split
          · simp
          · split
            · simp
            · rename_i w1 hrt _ _ _
              apply ih
              have := runThreadTask_terminated env w0
              rw [hrt] at this
              have h1 : w1.runner.m_isTerminated = true := by
                simpa [h0, h] using this
              simp [ResetTaskNonLocking, applyTerminate_terminated, World.log, h1]
        · exact ih _ (by rw [h0, h])

theorem wait_spec (w w0 : World) (inbox : List External) (h : wait w inbox = some w0) :
    w0.trace = w.trace
      ∧ (w0.runner.m_task.isSome || w0.runner.m_isTerminating) = true := by
  induction inbox generalizing w with
  | nil =>
    simp only [wait] at h
    split at h
    · rename_i hp
      cases h
      exact ⟨rfl, hp⟩
    · cases h
  | cons c rest ih =>
    simp only [wait] at h
    split at h
    · rename_i hp
      cases h
      exact ⟨rfl, hp⟩
    · rename_i hp
      obtain ⟨h1, h2⟩ := ih (c.deliver w) h
      refine ⟨?_, h2⟩
      rw [h1]
      have hnone : w.runner.m_task = none := by
        cases hm : w.runner.m_task with
        | none => rfl
        | some t => simp [hm] at hp
      cases c with
      | assignTask t => simp [External.deliver, AssignTask]
      | terminateTask => simp [External.deliver, TerminateTask, hnone]

/-- After the wait the loop goes on from the state the wait returned. -/
theorem threadRunner_after_wait (env : Env) (n : Nat) (w w0 : World)
    (hl : w.runner.m_isTerminating = false) (hw : wait w w.inbox = some w0) :
    ThreadRunner env (n + 1) w
      = if w0.runner.m_isTerminating then ThreadRunner env n w0
        else ThreadRunner env (n + 1) w0 := by
  have hp := (wait_spec w w0 w.inbox hw).2
  cases ht : w0.runner.m_isTerminating with
  | true => simp [ThreadRunner, hl, hw, ht]
  | false =>
    have hw0 : wait w0 w0.inbox = some w0 := by rw [wait_ready w0 w0.inbox hp]
    simp [ThreadRunner, hl, hw, ht, hw0]

theorem quiet_terminateEvents (b : Bool) (t : TaskId) : quiet (terminateEvents b t) = true := by
  cases b <;> simp [terminateEvents, quiet]

theorem quiet_append (a b : List Event) (ha : quiet a = true) (hb : quiet b = true) :
    quiet (a ++ b) = true := by
  induction a with
  | nil => simpa using hb
  | cons e a ih =>
    cases e <;> simp_all [quiet]

/-- The events `RunThreadTask` logs for an owned task: its `Run()`, then only
`OnException` and `Terminate` calls. -/
theorem runThreadTask_trace (env : Env) (w : World) (t : TaskId)
    (ht : w.runner.m_task = some t) :
    ∃ mid, quiet mid = true
      ∧ (RunThreadTask env w).1.trace = mid ++ Event.run t :: w.trace
      ∧ (RunThreadTask env w).1.runner.m_task = some t := by
  cases hr : (env.Run (Event.run t :: w.trace) t).result with
  | value u =>
    obtain ⟨-, h2, h3, -, -⟩ := runThreadTask_value env w t ht hr
    exact ⟨_, quiet_terminateEvents _ t, by rw [h2]; rfl, h3⟩
  | raised e =>
    obtain ⟨-, h2, h3, -, -⟩ := runThreadTask_raised env w t e ht hr
    refine ⟨terminateEvents
        (env.OnException (Event.onException t e :: afterRun env w t) t e).terminates t
      ++ Event.onException t e
        :: terminateEvents (env.Run (Event.run t :: w.trace) t).terminates t, ?_, ?_, h3⟩
    · apply quiet_append _ _ (quiet_terminateEvents _ t)
      simp [quiet, quiet_terminateEvents]
    · rw [h2]
      simp [afterOnException, afterRun]

/-- What one iteration of the loop does to the trace: nothing (the loop
returns, blocks, or goes round after a wake-up for termination); or a `Run()`
followed only by `OnException` and `Terminate` calls and an exception leaving
the loop; or a `Run()` followed by such calls and then the completion callback
on the task that ran, after which the loop either leaves by an exception or
goes on. -/
theorem threadRunner_step (env : Env) (n : Nat) (w : World) :
    ((ThreadRunner env (n + 1) w).2.trace = w.trace
        ∧ ((ThreadRunner env (n + 1) w).1 = Exit.returned
            ∨ (ThreadRunner env (n + 1) w).1 = Exit.blocked))
      ∨ (∃ w0, w0.trace = w.trace ∧ ThreadRunner env (n + 1) w = ThreadRunner env n w0)
      ∨ (∃ t mid e, quiet mid = true
          ∧ (ThreadRunner env (n + 1) w).2.trace = mid ++ Event.run t :: w.trace
          ∧ (ThreadRunner env (n + 1) w).1 = Exit.raised e)
      ∨ (∃ t mid e, quiet mid = true
          ∧ (ThreadRunner env (n + 1) w).2.trace
              = Event.finished (some t) :: (mid ++ Event.run t :: w.trace)
          ∧ (ThreadRunner env (n + 1) w).1 = Exit.raised e)
      ∨ (∃ t mid w6, quiet mid = true
          ∧ w6.trace = Event.finished (some t) :: (mid ++ Event.run t :: w.trace)
          ∧ ThreadRunner env (n + 1) w = ThreadRunner env n w6) := by
  cases hl : w.runner.m_isTerminating with
  | true =>
    left
    simp [ThreadRunner, hl]
  | false =>
    cases hw : wait w w.inbox with
    | none =>
      left
      simp [ThreadRunner, hl, hw]
    | some w0 =>
      obtain ⟨htr0, hp⟩ := wait_spec w w0 w.inbox hw
      rw [threadRunner_after_wait env n w w0 hl hw]
      cases hl0 : w0.runner.m_isTerminating with
      | true =>
        right; left
        exact ⟨w0, htr0, by simp⟩
      | false =>
        simp only [Bool.false_eq_true, if_false]
        have htask : ∃ t, w0.runner.m_task = some t := by
          cases hm : w0.runner.m_task with
          | none => simp [hm, hl0] at hp
          | some t => exact ⟨t, rfl⟩
        obtain ⟨t, ht⟩ := htask
        rw [← htr0]
        obtain ⟨mid, hq, hmid, hm1⟩ := runThreadTask_trace env w0 t ht
        rcases hrt : RunThreadTask env w0 with ⟨w1, x⟩
        rw [hrt] at hmid hm1
        simp only at hmid hm1
        cases x with
        | some e =>
          right; right; left
          refine ⟨t, mid, e, hq, ?_, ?_⟩
          · simp [ThreadRunner, hl0, wait_owned w0 t ht, hrt, hmid]
          · simp [ThreadRunner, hl0, wait_owned w0 t ht, hrt]
        | none =>
          rw [threadRunner_hook env n w0 w1 t ht hl0 hrt hm1]
          cases hh : (env.finishCallback (Event.finished (some t) :: w1.trace) (some t)).result with
          | raised e =>
            right; right; right; left
            exact ⟨t, mid, e, hq, by simp [afterHook, hmid], rfl⟩
          | value next =>
            right; right; right; right
            exact ⟨t, mid, _, hq, by simp [afterHook, hmid], rfl⟩

theorem pendingRun_quiet (mid : List Event) (t : TaskId) (tr : List Event)
    (hq : quiet mid = true) : pendingRun (mid ++ Event.run t :: tr) = some t := by
  induction mid with
  | nil => simp [pendingRun]
  | cons e mid ih =>
    cases e <;> simp_all [quiet, pendingRun]

theorem handoffOk_quiet (mid : List Event) (tr : List Event) (hq : quiet mid = true) :
    handoffOk (mid ++ tr) = handoffOk tr := by
  induction mid with
  | nil => simp
  | cons e mid ih =>
    cases e <;> simp_all [quiet, handoffOk]

theorem handoffOk_iteration (mid : List Event) (t : TaskId) (tr : List Event)
    (hq : quiet mid = true) (h : handoffOk tr = true) :
    handoffOk (Event.finished (some t) :: (mid ++ Event.run t :: tr)) = true := by
  simp [handoffOk, pendingRun_quiet mid t tr hq, handoffOk_quiet mid _ hq, h]

theorem handoffOk_failed (mid : List Event) (t : TaskId) (tr : List Event)
    (hq : quiet mid = true) (h : handoffOk tr = true) :
    handoffOk (mid ++ Event.run t :: tr) = true := by
  simp [handoffOk_quiet mid _ hq, handoffOk, h]

/-- The loop keeps the handoff discipline of the trace. -/
theorem threadRunner_handoff (env : Env) (fuel : Nat) (w : World)
    (h : handoffOk w.trace = true) : handoffOk (ThreadRunner env fuel w).2.trace = true := by
  induction fuel generalizing w with
  | zero => simpa [ThreadRunner] using h
  | succ n ih =>
    rcases threadRunner_step env n w with h1 | ⟨w0, h0, h1⟩ | ⟨t, mid, e, hq, h1, -⟩
      | ⟨t, mid, e, hq, h1, -⟩ | ⟨t, mid, w6, hq, h6, h1⟩
    · rw [h1.1]; exact h
    · rw [h1]; exact ih w0 (by rw [h0]; exact h)
    · rw [h1]; exact handoffOk_failed mid t _ hq h
    · rw [h1]; exact handoffOk_iteration mid t _ hq h
    · rw [h1]; exact ih w6 (by rw [h6]; exact handoffOk_iteration mid t _ hq h)

/-- The loop only adds events to the trace. -/
theorem threadRunner_trace_grows (env : Env) (fuel : Nat) (w : World) :
    ∃ post, (ThreadRunner env fuel w).2.trace = post ++ w.trace := by
  induction fuel generalizing w with
  | zero => exact ⟨[], by simp [ThreadRunner]⟩
  | succ n ih =>
    rcases threadRunner_step env n w with h1 | ⟨w0, h0, h1⟩ | ⟨t, mid, e, hq, h1, -⟩
      | ⟨t, mid, e, hq, h1, -⟩ | ⟨t, mid, w6, hq, h6, h1⟩
    · exact ⟨[], by simp [h1.1]⟩
    · obtain ⟨post, hp⟩ := ih w0
      exact ⟨post, by rw [h1, hp, h0]⟩
    · exact ⟨mid ++ [Event.run t], by simp [h1]⟩
    · exact ⟨Event.finished (some t) :: (mid ++ [Event.run t]), by simp [h1]⟩
    · obtain ⟨post, hp⟩ := ih w6
      exact ⟨post ++ Event.finished (some t) :: (mid ++ [Event.run t]), by simp [h1, hp, h6]⟩

theorem firstHook_append (post tr : List Event) (r : Option TaskId × List Event)
    (h : firstHook tr = some r) : firstHook (post ++ tr) = some r := by
  induction post with
  | nil => simpa using h
  | cons e post ih => simp [firstHook, ih]

theorem firstHook_first (x : Option TaskId) (tr : List Event) (h : firstHook tr = none) :
    firstHook (Event.finished x :: tr) = some (x, tr) := by
  simp [firstHook, h]

theorem totalRuns_quiet (mid : List Event) (tr : List Event) (hq : quiet mid = true) :
    totalRuns (mid ++ tr) = totalRuns tr := by
  induction mid with
  | nil => simp
  | cons e mid ih =>
    cases e <;> simp_all [quiet, totalRuns]

theorem runCount_quiet (t : TaskId) (mid : List Event) (tr : List Event)
    (hq : quiet mid = true) : runCount t (mid ++ tr) = runCount t tr := by
  induction mid with
  | nil => simp
  | cons e mid ih =>
    cases e <;> simp_all [quiet, runCount, List.count_cons]

theorem hookCount_terminateFree (mid : List Event) (tr : List Event) (hq : quiet mid = true) :
    hookCount (mid ++ tr) = hookCount tr := by
  induction mid with
  | nil => simp
  | cons e mid ih =>
    cases e <;> simp_all [quiet, hookCount]

theorem firstHook_none (tr : List Event) (h : hookCount tr = 0) : firstHook tr = none := by
  induction tr with
  | nil => rfl
  | cons e tr ih =>
    cases e <;> simp_all [hookCount, firstHook]

/-- The first completion-callback invocation of a loop started on an owned
task `t`, if there is one, receives `t` right after the first `Run()`. -/
theorem threadRunner_firstHook (env : Env) (fuel : Nat) (w : World) (t : TaskId)
    (ht : w.runner.m_task = some t) (hlive : w.runner.m_isTerminating = false)
    (hempty : w.trace = []) :
    (∀ x before, firstHook (ThreadRunner env fuel w).2.trace = some (x, before) →
        x = some t ∧ totalRuns before = 1 ∧ runCount t before = 1 ∧ hookCount before = 0)
      ∧ (0 < fuel → (RunThreadTask env w).2 = none →
          ∃ before, firstHook (ThreadRunner env fuel w).2.trace = some (some t, before)) := by
  cases fuel with
  | zero => simp [ThreadRunner, hempty, firstHook]
  | succ n =>
    obtain ⟨mid, hq, hmid, hm1⟩ := runThreadTask_trace env w t ht
    rcases hrt : RunThreadTask env w with ⟨w1, x⟩
    rw [hrt] at hmid hm1
    simp only at hmid hm1
    rw [hempty] at hmid
    have hcount : hookCount w1.trace = 0 := by
      rw [hmid, hookCount_terminateFree mid _ hq]
      simp [hookCount]
    have hnone : firstHook w1.trace = none := firstHook_none w1.trace hcount
    have hruns : totalRuns w1.trace = 1 ∧ runCount t w1.trace = 1 := by
      rw [hmid, totalRuns_quiet mid _ hq, runCount_quiet t mid _ hq]
      simp [totalRuns, runCount]
    cases x with
    | some e =>
      have htr : (ThreadRunner env (n + 1) w).2.trace = w1.trace := by
        simp [ThreadRunner, hlive, wait_owned w t ht, hrt]
      rw [htr, hnone]
      simp
    | none =>
      rw [threadRunner_hook env n w w1 t ht hlive hrt hm1]
      have hfirst : ∀ tr post, tr = post ++ Event.finished (some t) :: w1.trace →
          firstHook tr = some (some t, w1.trace) := by
        intro tr post h
        rw [h]
        exact firstHook_append post _ _ (firstHook_first (some t) w1.trace hnone)
      have hgoal : ∀ res : Exit × World,
          (∃ post, res.2.trace = post ++ Event.finished (some t) :: w1.trace) →
          (∀ x before, firstHook res.2.trace = some (x, before) →
              x = some t ∧ totalRuns before = 1 ∧ runCount t before = 1 ∧ hookCount before = 0)
            ∧ (0 < n + 1 → (none : Option Exn) = none →
                ∃ before, firstHook res.2.trace = some (some t, before)) := by
        intro res hres
        obtain ⟨post, hpost⟩ := hres
        have hf := hfirst _ post hpost
        refine ⟨?_, fun _ _ => ⟨w1.trace, hf⟩⟩
        intro x before hx
        rw [hf] at hx
        cases hx
        exact ⟨rfl, hruns.1, hruns.2, hcount⟩
      apply hgoal
      cases hh : (env.finishCallback (Event.finished (some t) :: w1.trace) (some t)).result with
      | raised e => exact ⟨[], by simp [afterHook]⟩
      | value next =>
        obtain ⟨post, hp⟩ := threadRunner_trace_grows env n
          (afterHook w1 t
            (env.finishCallback (Event.finished (some t) :: w1.trace) (some t)).terminates
            next w1.runner.m_isTerminated false)
        exact ⟨post, by simpa [afterHook] using hp⟩

/-- C1: after `AssignTask(t)` on a fresh runner, whatever the callbacks and the
other threads do, every completion-callback invocation `ThreadRunner` makes
receives a non-null task, the one whose `Run()` the loop has just called (this
holds from any start state); the first invocation, if there is one, receives
`t` itself, after exactly one `Run()` call, which was on `t`; and there is
such an invocation as soon as no exception leaves the first `RunThreadTask`. -/
theorem C1_hook_receives_the_task_run (env : Env) (fuel : Nat) (inbox : List External)
    (t : TaskId) :
    handoffOk (ThreadRunner env fuel (AssignTask (some t) (World.fresh inbox))).2.trace = true
      ∧ (∀ w, handoffOk w.trace = true → handoffOk (ThreadRunner env fuel w).2.trace = true)
      ∧ (∀ x before,
          firstHook (ThreadRunner env fuel (AssignTask (some t) (World.fresh inbox))).2.trace
            = some (x, before) →
          x = some t ∧ totalRuns before = 1 ∧ runCount t before = 1 ∧ hookCount before = 0)
      ∧ (0 < fuel → (RunThreadTask env (AssignTask (some t) (World.fresh inbox))).2 = none →
          ∃ before,
            firstHook (ThreadRunner env fuel (AssignTask (some t) (World.fresh inbox))).2.trace
              = some (some t, before)) := by
  have h := threadRunner_firstHook env fuel (AssignTask (some t) (World.fresh inbox)) t rfl rfl rfl
  exact ⟨threadRunner_handoff env fuel _ rfl, fun w hw => threadRunner_handoff env fuel w hw,
    h.1, h.2⟩

/-- C1 on the test "run once": the callback's first invocation receives task 7
after the single `Run()` of task 7. -/
theorem C1_hook_receives_the_task_run_witness :
    firstHook (ThreadRunner runOnceEnv 2 (AssignTask (some 7) (World.fresh []))).2.trace
        = some (some 7, [Event.run 7])
      ∧ (some 7 = some 7 ∧ totalRuns [Event.run 7] = 1 ∧ runCount 7 [Event.run 7] = 1
          ∧ hookCount [Event.run 7] = 0) :=
  ⟨by decide,
   (C1_hook_receives_the_task_run runOnceEnv 2 [] 7).2.2.1 (some 7) [Event.run 7] (by decide)⟩

/-- C6: from every runner state, with every task behaviour and every
completion callback, when `ThreadRunner` stops, by returning or by letting an
exception escape, `IsTerminated()` is true in the state it leaves. -/
theorem C6_stopped_means_terminated (env : Env) (fuel : Nat) (w : World)
    (h : (ThreadRunner env fuel w).1 = Exit.returned
      ∨ ∃ e, (ThreadRunner env fuel w).1 = Exit.raised e) :
    IsTerminated (ThreadRunner env fuel w).2 = true :=
  threadRunner_stops_terminated env fuel w h

/-- C6 on a loop left by an exception of the completion callback. -/
theorem C6_stopped_means_terminated_witness :
    (ThreadRunner ignoringEnv 1 (AssignTask (some 7) (World.fresh []))).1 = Exit.raised 2
      ∧ IsTerminated (ThreadRunner ignoringEnv 1 (AssignTask (some 7) (World.fresh []))).2
          = true :=
  ⟨by decide,
   C6_stopped_means_terminated ignoringEnv 1 (AssignTask (some 7) (World.fresh []))
     (Or.inr ⟨2, by decide⟩)⟩

/-- A loop that returned normally left termination requested. -/
theorem threadRunner_returned_terminating (env : Env) (fuel : Nat) (w : World)
    (h : (ThreadRunner env fuel w).1 = Exit.returned) :
    (ThreadRunner env fuel w).2.runner.m_isTerminating = true := by
  induction fuel generalizing w with
  | zero => simp [ThreadRunner] at h
  | succ n ih =>
    revert h
    simp only [ThreadRunner]
    split
    · rename_i hl
      intro _
      simpa using hl
    · split
      · simp
      · split
        · split
          · simp
          · split
            · simp
            · exact ih _
        · exact ih _

theorem setup_assign (tasks : List (Option TaskId)) (w : World) :
    (setup (tasks.map External.assignTask) w).trace = w.trace
      ∧ (setup (tasks.map External.assignTask) w).runner.m_isTerminated
          = w.runner.m_isTerminated
      ∧ (setup (tasks.map External.assignTask) w).runner.m_isTerminating
          = w.runner.m_isTerminating := by
  induction tasks generalizing w with
  | nil => simp [setup]
  | cons t ts ih =>
    have h := ih (AssignTask t w)
    simpa [setup, External.deliver, AssignTask] using h

/-- C7, as stated, fails: the loop left by the exception of task 7 leaves the
runner terminated, and a later `ThreadRunner` calls `Run()` on task 7, which
the runner still owns, a second time; after an `AssignTask` of task 8 it calls
`Run()` on task 8. -/
theorem C7_counterexample :
    IsTerminated (ThreadRunner rethrowingEnv 1 (AssignTask (some 7) (World.fresh []))).2 = true
      ∧ (ThreadRunner rethrowingEnv 1
          (ThreadRunner rethrowingEnv 1 (AssignTask (some 7) (World.fresh []))).2).2.trace
          = [Event.onException 7 1, Event.run 7, Event.onException 7 1, Event.run 7]
      ∧ (ThreadRunner rethrowingEnv 1
          (AssignTask (some 8)
            (ThreadRunner rethrowingEnv 1 (AssignTask (some 7) (World.fresh []))).2)).2.trace
          = [Event.onException 8 1, Event.run 8, Event.onException 7 1, Event.run 7] := by
  decide

/-- C7, amended: a terminated runner stays terminated through any further
`AssignTask` calls and any later `ThreadRunner`; and when termination has been
requested on it, as is the case after every normal loop exit, a later
`ThreadRunner` returns at once, calling `Run()` on no task and invoking no
callback. -/
theorem C7_terminated_after_request_runs_nothing (env : Env) (fuel : Nat) (w : World)
    (tasks : List (Option TaskId)) (hterm : IsTerminated w = true) :
    IsTerminated (ThreadRunner env fuel (setup (tasks.map External.assignTask) w)).2 = true
      ∧ ((w.runner.m_isTerminating = true
            ∨ ∃ env0 fuel0 w0, ThreadRunner env0 fuel0 w0 = (Exit.returned, w)) →
          (ThreadRunner env (fuel + 1) (setup (tasks.map External.assignTask) w)).1
              = Exit.returned
            ∧ (ThreadRunner env (fuel + 1) (setup (tasks.map External.assignTask) w)).2.trace
              = w.trace
            ∧ totalRuns
                (ThreadRunner env (fuel + 1) (setup (tasks.map External.assignTask) w)).2.trace
              = totalRuns w.trace) := by
  obtain ⟨h1, h2, h3⟩ := setup_assign tasks w
  refine ⟨threadRunner_keeps_terminated env fuel _ (by rw [h2]; exact hterm), ?_⟩
  intro hreq
  have hreq2 : w.runner.m_isTerminating = true := by
    rcases hreq with h | ⟨env0, fuel0, w0, h⟩
    · exact h
    · have := threadRunner_returned_terminating env0 fuel0 w0 (by rw [h])
      rw [h] at this
      exact this
  rw [threadRunner_terminating env fuel _ (by rw [h3]; exact hreq2)]
  simp [h1]

/-- C7 amended, on the runner of the test "run once" after its loop returned:
an `AssignTask` of task 8 and a second `ThreadRunner` run nothing. -/
theorem C7_terminated_after_request_runs_nothing_witness :
    IsTerminated (ThreadRunner runOnceEnv 2 (AssignTask (some 7) (World.fresh []))).2 = true
      ∧ (ThreadRunner runOnceEnv (0 + 1)
          (setup ([some 8].map External.assignTask)
            (ThreadRunner runOnceEnv 2 (AssignTask (some 7) (World.fresh []))).2)).2.trace
          = (ThreadRunner runOnceEnv 2 (AssignTask (some 7) (World.fresh []))).2.trace :=
  ⟨by decide,
   ((C7_terminated_after_request_runs_nothing runOnceEnv 0
      (ThreadRunner runOnceEnv 2 (AssignTask (some 7) (World.fresh []))).2 [some 8]
      (by decide)).2 (Or.inr ⟨runOnceEnv, 2, AssignTask (some 7) (World.fresh []),
        by decide⟩)).2.1⟩

theorem runThreadTask_completes (env : Env) (w : World) (t : TaskId)
    (ht : w.runner.m_task = some t) (hc : completes env t) :
    ∃ w1 mid, RunThreadTask env w = (w1, none)
      ∧ quiet mid = true
      ∧ w1.trace = mid ++ Event.run t :: w.trace
      ∧ w1.runner.m_task = some t
      ∧ w1.runner.m_isTerminating = w.runner.m_isTerminating := by
  obtain ⟨hq, hres⟩ := hc (Event.run t :: w.trace)
  rcases hres with hv | ⟨e, he, hsw⟩
  · refine ⟨(RunThreadTask env w).1, [], ?_, rfl, ?_, ?_, ?_⟩ <;>
      simp [RunThreadTask, ht, World.log, hv, hq, applyTerminate]
  · refine ⟨(RunThreadTask env w).1, [Event.onException t e], ?_, rfl, ?_, ?_, ?_⟩ <;>
      simp [RunThreadTask, ht, World.log, he, hq, applyTerminate, hsw]

/-- The loop of C2 from a state in which the callback has `j` more
invocations to go before the one that terminates. -/
theorem threadRunner_reassign (env : Env) (N extra : Nat) (t : TaskId)
    (hc : completes env t)
    (hagain : ∀ h, hookCount h ≤ N →
      env.finishCallback h (some t) = { terminates := false, result := Completion.value (some t) })
    (hstop : ∀ h, hookCount h = N + 1 →
      env.finishCallback h (some t) = { terminates := true, result := Completion.value none })
    (j : Nat) (w : World) (ht : w.runner.m_task = some t)
    (hlive : w.runner.m_isTerminating = false) (hj : hookCount w.trace + j = N) :
    (ThreadRunner env (j + 2 + extra) w).1 = Exit.returned
      ∧ hookCount (ThreadRunner env (j + 2 + extra) w).2.trace = N + 1
      ∧ totalRuns (ThreadRunner env (j + 2 + extra) w).2.trace = totalRuns w.trace + (j + 1)
      ∧ runCount t (ThreadRunner env (j + 2 + extra) w).2.trace = runCount t w.trace + (j + 1)
      ∧ (ThreadRunner env (j + 2 + extra) w).2.runner.m_isTerminated = true := by
  induction j generalizing w with
  | zero =>
    obtain ⟨w1, mid, hrt, hq, htr, hm1, hl1⟩ := runThreadTask_completes env w t ht hc
    have hcount : hookCount (Event.finished (some t) :: w1.trace) = N + 1 := by
      rw [htr]
      simp only [hookCount, hookCount_terminateFree mid _ hq]
      omega
    have hfuel : 0 + 2 + extra = (extra + 1) + 1 := by omega
    rw [hfuel, threadRunner_hook env (extra + 1) w w1 t ht hlive hrt hm1,
      hstop _ hcount]
    simp only
    rw [threadRunner_terminating env extra _ (by simp [afterHook])]
    refine ⟨rfl, ?_, ?_, ?_, rfl⟩
    · exact hcount
    · show totalRuns (Event.finished (some t) :: w1.trace) = totalRuns w.trace + (0 + 1)
      rw [htr]
      simp [totalRuns, totalRuns_quiet mid _ hq]
    · show runCount t (Event.finished (some t) :: w1.trace) = runCount t w.trace + (0 + 1)
      rw [htr]
      have := runCount_quiet t mid (Event.run t :: w.trace) hq
      simp [runCount, List.count_cons] at this ⊢
      omega
  | succ j ih =>
    obtain ⟨w1, mid, hrt, hq, htr, hm1, hl1⟩ := runThreadTask_completes env w t ht hc
    have hcount : hookCount (Event.finished (some t) :: w1.trace) = hookCount w.trace + 1 := by
      rw [htr]
      simp only [hookCount, hookCount_terminateFree mid _ hq]
    have hfuel : j + 1 + 2 + extra = (j + 2 + extra) + 1 := by omega
    rw [hfuel, threadRunner_hook env (j + 2 + extra) w w1 t ht hlive hrt hm1,
      hagain _ (by rw [hcount]; omega)]
    simp only
    have h6 := ih (afterHook w1 t false (some t) w1.runner.m_isTerminated false) rfl
      (by simp [afterHook, hl1, hlive])
      (by simp only [afterHook]; rw [hcount]; omega)
    obtain ⟨g1, g2, g3, g4, g5⟩ := h6
    refine ⟨g1, g2, ?_, ?_, g5⟩
    · rw [g3]
      simp only [afterHook, htr, totalRuns, totalRuns_quiet mid _ hq]
      omega
    · rw [g4]
      have := runCount_quiet t mid (Event.run t :: w.trace) hq
      simp only [afterHook, htr]
      simp [runCount, List.count_cons] at this ⊢
      omega

/-- The iteration in which termination is requested and the completion
callback returns a next task: the loop leaves with that task owned. -/
theorem threadRunner_handover (env : Env) (fuel : Nat) (w w1 : World) (t next : TaskId)
    (ht : w.runner.m_task = some t) (hlive : w.runner.m_isTerminating = false)
    (hrt : RunThreadTask env w = (w1, none)) (h1 : w1.runner.m_task = some t)
    (hnext : (env.finishCallback (Event.finished (some t) :: w1.trace) (some t)).result
      = Completion.value (some next))
    (hreq : (env.finishCallback (Event.finished (some t) :: w1.trace) (some t)).terminates = true
      ∨ w1.runner.m_isTerminating = true) :
    ThreadRunner env (fuel + 2) w
      = (Exit.returned,
          afterHook w1 t
            (env.finishCallback (Event.finished (some t) :: w1.trace) (some t)).terminates
            (some next) true false) := by
  have hterm : ((env.finishCallback (Event.finished (some t) :: w1.trace) (some t)).terminates
      || w1.runner.m_isTerminating) = true := by
    rcases hreq with h | h <;> simp [h]
  rw [show fuel + 2 = (fuel + 1) + 1 from rfl,
    threadRunner_hook env (fuel + 1) w w1 t ht hlive hrt h1, hnext]
  simp only
  rw [threadRunner_terminating env fuel _ (by simpa [afterHook] using hterm)]
  simp [afterHook]

/-- C12: when, in one iteration of the loop, termination is requested (by the
completion callback, or while the task ran) and the callback returns a
non-null next task `next`, `ThreadRunner` returns normally with `next` owned
by the runner and `IsTerminated()` true; the callback invocation is the last
event of the run, so `Run()` is not called on `next` and `next` is not handed
to the callback; and a later `TerminateTask()` calls `Terminate()` on `next`. -/
theorem C12_next_task_survives_termination (env : Env) (fuel : Nat) (w : World)
    (t next : TaskId) (ht : w.runner.m_task = some t)
    (hlive : w.runner.m_isTerminating = false)
    (hrt : (RunThreadTask env w).2 = none)
    (hnext : (env.finishCallback (Event.finished (some t) :: (RunThreadTask env w).1.trace)
        (some t)).result = Completion.value (some next))
    (hreq : (env.finishCallback (Event.finished (some t) :: (RunThreadTask env w).1.trace)
          (some t)).terminates = true
      ∨ (RunThreadTask env w).1.runner.m_isTerminating = true) :
    (ThreadRunner env (fuel + 2) w).1 = Exit.returned
      ∧ (ThreadRunner env (fuel + 2) w).2.runner.m_task = some next
      ∧ IsTerminated (ThreadRunner env (fuel + 2) w).2 = true
      ∧ (ThreadRunner env (fuel + 2) w).2.trace
          = Event.finished (some t) :: (RunThreadTask env w).1.trace
      ∧ totalRuns (ThreadRunner env (fuel + 2) w).2.trace = totalRuns w.trace + 1
      ∧ hookCount (ThreadRunner env (fuel + 2) w).2.trace = hookCount w.trace + 1
      ∧ (TerminateTask (ThreadRunner env (fuel + 2) w).2).trace
          = Event.terminate next :: (ThreadRunner env (fuel + 2) w).2.trace
      ∧ (TerminateTask (ThreadRunner env (fuel + 2) w).2).runner.m_task = some next := by
  obtain ⟨mid, hq, hmid, hm1⟩ := runThreadTask_trace env w t ht
  rcases hpair : RunThreadTask env w with ⟨w1, x⟩
  rw [hpair] at hrt hnext hreq hmid hm1
  simp only at hrt hnext hreq hmid hm1
  subst hrt
  rw [threadRunner_handover env fuel w w1 t next ht hlive hpair hm1 hnext hreq]
  refine ⟨rfl, rfl, rfl, rfl, ?_, ?_, ?_, ?_⟩
  · simp [afterHook, hmid, totalRuns, totalRuns_quiet mid _ hq]
  · simp [afterHook, hmid, hookCount, hookCount_terminateFree mid _ hq]
  · simp [afterHook, TerminateTask, World.log]
  · simp [afterHook, TerminateTask, World.log]

/-- C12 on the callback of `handOverEnv`: task 7 runs, the callback calls
`TerminateTask()` and returns task 8, the loop returns with task 8 owned and
never run, and the destructor's `TerminateTask()` calls `Terminate()` on it. -/
theorem C12_next_task_survives_termination_witness :
    (ThreadRunner handOverEnv (0 + 2) (AssignTask (some 7) (World.fresh []))).1 = Exit.returned
      ∧ (ThreadRunner handOverEnv (0 + 2)
          (AssignTask (some 7) (World.fresh []))).2.runner.m_task = some 8
      ∧ (ThreadRunner handOverEnv (0 + 2) (AssignTask (some 7) (World.fresh []))).2.trace
          = [Event.finished (some 7), Event.run 7]
      ∧ (TerminateTask (ThreadRunner handOverEnv (0 + 2)
          (AssignTask (some 7) (World.fresh []))).2).trace
          = [Event.terminate 8, Event.finished (some 7), Event.run 7] :=
  ⟨(C12_next_task_survives_termination handOverEnv 0 (AssignTask (some 7) (World.fresh []))
      7 8 rfl rfl rfl rfl (Or.inl rfl)).1,
   (C12_next_task_survives_termination handOverEnv 0 (AssignTask (some 7) (World.fresh []))
      7 8 rfl rfl rfl rfl (Or.inl rfl)).2.1,
   by decide, by decide⟩

/-- A loop that is still running after `j` iterations goes on from the state
it has reached. -/
theorem threadRunner_resume (env : Env) (j m : Nat) (w : World)
    (h : (ThreadRunner env j w).1 = Exit.running) :
    ThreadRunner env (j + m) w = ThreadRunner env m (ThreadRunner env j w).2 := by
  induction j generalizing w with
  | zero => simp [ThreadRunner]
  | succ j ih =>
    rw [show j + 1 + m = (j + m) + 1 by omega]
    revert h
    simp only [ThreadRunner]
    split
    · simp
    · split
      · simp
      · split
        · split
          · simp
          · split
            · simp
            · exact ih _
        · exact ih _

/-- The loop of C2 after `j ≤ N` iterations: still running, the task handed
back and owned, `j` runs and `j` callback invocations so far. -/
theorem threadRunner_handed_back (env : Env) (N : Nat) (t : TaskId) (w0 : World)
    (ht0 : w0.runner.m_task = some t) (hlive0 : w0.runner.m_isTerminating = false)
    (hempty : w0.trace = []) (hreach : reachesHook env w0 N)
    (hagain : ∀ h, hookCount h ≤ N →
      env.finishCallback h (some t) = { terminates := false, result := Completion.value (some t) })
    (j : Nat) (hj : j ≤ N) :
    (ThreadRunner env j w0).1 = Exit.running
      ∧ (ThreadRunner env j w0).2.runner.m_task = some t
      ∧ (ThreadRunner env j w0).2.runner.m_isTerminating = false
      ∧ hookCount (ThreadRunner env j w0).2.trace = j
      ∧ totalRuns (ThreadRunner env j w0).2.trace = j
      ∧ runCount t (ThreadRunner env j w0).2.trace = j := by
  induction j with
  | zero => simp [ThreadRunner, ht0, hlive0, hempty, hookCount, totalRuns, runCount]
  | succ j ih =>
    obtain ⟨i1, i2, i3, i4, i5, i6⟩ := ih (by omega)
    obtain ⟨hnone, hquiet⟩ := hreach j (by omega)
    have hq1 := hquiet (by omega)
    obtain ⟨mid, hq, hmid, hm1⟩ := runThreadTask_trace env (ThreadRunner env j w0).2 t i2
    rcases hpair : RunThreadTask env (ThreadRunner env j w0).2 with ⟨w1, x⟩
    rw [hpair] at hnone hq1 hmid hm1
    simp only at hnone hq1 hmid hm1
    subst hnone
    have hcount : hookCount (Event.finished (some t) :: w1.trace) = j + 1 := by
      rw [hmid]
      simp only [hookCount, hookCount_terminateFree mid _ hq, i4]
    have hruns : totalRuns w1.trace = j + 1 ∧ runCount t w1.trace = j + 1 := by
      have := runCount_quiet t mid (Event.run t :: (ThreadRunner env j w0).2.trace) hq
      rw [hmid, totalRuns_quiet mid _ hq]
      simp only [totalRuns, i5, true_and]
      simp [runCount, List.count_cons] at this i6 ⊢
      omega
    rw [threadRunner_resume env j 1 w0 i1,
      threadRunner_hook env 0 _ w1 t i2 i3 hpair hm1, hagain _ (by rw [hcount]; omega)]
    refine ⟨by simp [ThreadRunner], by simp [ThreadRunner, afterHook],
      by simp [ThreadRunner, afterHook, hq1], ?_, ?_, ?_⟩
    · simpa [ThreadRunner, afterHook] using hcount
    · simpa [ThreadRunner, afterHook, totalRuns] using hruns.1
    · simpa [ThreadRunner, afterHook, runCount, List.count_cons] using hruns.2

/-- The loop of C2 to its end: it returns after `N + 1` runs and `N + 1`
callback invocations. -/
theorem threadRunner_reassign_reaching (env : Env) (N extra : Nat) (t : TaskId) (w0 : World)
    (ht0 : w0.runner.m_task = some t) (hlive0 : w0.runner.m_isTerminating = false)
    (hempty : w0.trace = []) (hreach : reachesHook env w0 N)
    (hagain : ∀ h, hookCount h ≤ N →
      env.finishCallback h (some t) = { terminates := false, result := Completion.value (some t) })
    (hstop : ∀ h, hookCount h = N + 1 →
      env.finishCallback h (some t) = { terminates := true, result := Completion.value none }) :
    (ThreadRunner env (N + 2 + extra) w0).1 = Exit.returned
      ∧ runCount t (ThreadRunner env (N + 2 + extra) w0).2.trace = N + 1
      ∧ totalRuns (ThreadRunner env (N + 2 + extra) w0).2.trace = N + 1
      ∧ hookCount (ThreadRunner env (N + 2 + extra) w0).2.trace = N + 1
      ∧ (ThreadRunner env (N + 2 + extra) w0).2.runner.m_isTerminated = true := by
  obtain ⟨i1, i2, i3, i4, i5, i6⟩ :=
    threadRunner_handed_back env N t w0 ht0 hlive0 hempty hreach hagain N (Nat.le_refl N)
  obtain ⟨hnone, -⟩ := hreach N (Nat.le_refl N)
  obtain ⟨mid, hq, hmid, hm1⟩ := runThreadTask_trace env (ThreadRunner env N w0).2 t i2
  rcases hpair : RunThreadTask env (ThreadRunner env N w0).2 with ⟨w1, x⟩
  rw [hpair] at hnone hmid hm1
  simp only at hnone hmid hm1
  subst hnone
  have hcount : hookCount (Event.finished (some t) :: w1.trace) = N + 1 := by
    rw [hmid]
    simp only [hookCount, hookCount_terminateFree mid _ hq, i4]
  have hruns : totalRuns w1.trace = N + 1 ∧ runCount t w1.trace = N + 1 := by
    have := runCount_quiet t mid (Event.run t :: (ThreadRunner env N w0).2.trace) hq
    rw [hmid, totalRuns_quiet mid _ hq]
    simp only [totalRuns, i5, true_and]
    simp [runCount, List.count_cons] at this i6 ⊢
    omega
  rw [show N + 2 + extra = N + ((extra + 1) + 1) by omega,
    threadRunner_resume env N _ w0 i1,
    threadRunner_hook env (extra + 1) _ w1 t i2 i3 hpair hm1, hstop _ hcount]
  simp only
  rw [threadRunner_terminating env extra _ (by simp [afterHook])]
  refine ⟨rfl, ?_, ?_, hcount, rfl⟩
  · simpa [afterHook, runCount, List.count_cons] using hruns.2
  · simpa [afterHook, totalRuns] using hruns.1

/-- C2, as stated, fails: with the completion callback of the claim for
`N = 5` (it hands the task back on its first five invocations and on the sixth
calls `TerminateTask()` and returns no task), a task whose `Run()` raises an
exception that `OnException` re-raises makes `ThreadRunner` leave by that
exception after one `Run()` and no callback invocation, whatever the fuel; and
a task during whose first `Run()` `TerminateTask()` is called makes it return
after one `Run()` and one callback invocation. -/
theorem C2_counterexample :
    (∀ h, hookCount h ≤ 5 →
        runAgainEnv.finishCallback h (some 7)
          = { terminates := false, result := Completion.value (some 7) })
      ∧ (∀ h, hookCount h = 5 + 1 →
          runAgainEnv.finishCallback h (some 7)
            = { terminates := true, result := Completion.value none })
      ∧ rethrowAgainEnv.finishCallback = runAgainEnv.finishCallback
      ∧ stoppedWhileRunningEnv.finishCallback = runAgainEnv.finishCallback
      ∧ (ThreadRunner rethrowAgainEnv (5 + 2) (AssignTask (some 7) (World.fresh []))).1
          = Exit.raised 1
      ∧ totalRuns (ThreadRunner rethrowAgainEnv (5 + 2)
          (AssignTask (some 7) (World.fresh []))).2.trace = 1
      ∧ hookCount (ThreadRunner rethrowAgainEnv (5 + 2)
          (AssignTask (some 7) (World.fresh []))).2.trace = 0
      ∧ (∀ fuel, (ThreadRunner rethrowAgainEnv fuel (AssignTask (some 7) (World.fresh []))).1
          ≠ Exit.returned)
      ∧ (ThreadRunner stoppedWhileRunningEnv (5 + 2) (AssignTask (some 7) (World.fresh []))).1
          = Exit.returned
      ∧ totalRuns (ThreadRunner stoppedWhileRunningEnv (5 + 2)
          (AssignTask (some 7) (World.fresh []))).2.trace = 1
      ∧ hookCount (ThreadRunner stoppedWhileRunningEnv (5 + 2)
          (AssignTask (some 7) (World.fresh []))).2.trace = 1 := by
  refine ⟨fun h hh => by simp [runAgainEnv, hh], fun h hh => by simp [runAgainEnv, hh],
    rfl, rfl, by decide, by decide, by decide, ?_, by decide, by decide, by decide⟩
  intro fuel
  cases fuel with
  | zero => decide
  | succ n =>
    simp [ThreadRunner, wait, RunThreadTask, rethrowAgainEnv, AssignTask,
      World.fresh, TaskRunner.new, World.log, applyTerminate]

/-- C2, amended: for every `N`, when a task is assigned to a fresh runner, the
loop reaches the completion callback in each of its first `N + 1` iterations
(no exception leaves `RunThreadTask`, and in the first `N` iterations
termination is not requested while the task runs), and the callback returns
that task on its first `N` invocations and on invocation `N + 1` calls
`TerminateTask()` and returns no task, `ThreadRunner` returns normally (with
`N + 2` units of fuel or more) having called `Run()` exactly `N + 1` times,
each time on that task, and the callback exactly `N + 1` times;
`IsTerminated()` is then true. -/
theorem C2_task_reaching_hook_runs_N_plus_one_times (env : Env) (N extra : Nat)
    (inbox : List External) (t : TaskId)
    (hreach : reachesHook env (AssignTask (some t) (World.fresh inbox)) N)
    (hagain : ∀ h, hookCount h ≤ N →
      env.finishCallback h (some t) = { terminates := false, result := Completion.value (some t) })
    (hstop : ∀ h, hookCount h = N + 1 →
      env.finishCallback h (some t) = { terminates := true, result := Completion.value none }) :
    (ThreadRunner env (N + 2 + extra) (AssignTask (some t) (World.fresh inbox))).1
        = Exit.returned
      ∧ runCount t (ThreadRunner env (N + 2 + extra)
          (AssignTask (some t) (World.fresh inbox))).2.trace = N + 1
      ∧ totalRuns (ThreadRunner env (N + 2 + extra)
          (AssignTask (some t) (World.fresh inbox))).2.trace = N + 1
      ∧ hookCount (ThreadRunner env (N + 2 + extra)
          (AssignTask (some t) (World.fresh inbox))).2.trace = N + 1
      ∧ IsTerminated (ThreadRunner env (N + 2 + extra)
          (AssignTask (some t) (World.fresh inbox))).2 = true :=
  threadRunner_reassign_reaching env N extra t (AssignTask (some t) (World.fresh inbox))
    rfl rfl rfl hreach hagain hstop

/-- C2 amended, on a task that would raise from its third `Run()` on, handed
back once (`N = 1`): the loop returns after two runs and two callback
invocations, the third `Run()` never taking place. -/
theorem C2_task_reaching_hook_runs_N_plus_one_times_witness :
    (thirdRunRaisesEnv.Run [Event.run 7, Event.run 7, Event.run 7] 7).result
        = Completion.raised 1
      ∧ (ThreadRunner thirdRunRaisesEnv (1 + 2 + 0) (AssignTask (some 7) (World.fresh []))).1
        = Exit.returned
      ∧ runCount 7 (ThreadRunner thirdRunRaisesEnv (1 + 2 + 0)
          (AssignTask (some 7) (World.fresh []))).2.trace = 1 + 1 :=
  ⟨by decide,
   (C2_task_reaching_hook_runs_N_plus_one_times thirdRunRaisesEnv 1 0 [] 7
      (fun j hj => by interval_cases j <;> decide)
      (fun h hh => by simp [thirdRunRaisesEnv, hh])
      (fun h hh => by simp [thirdRunRaisesEnv, hh])).1,
   (C2_task_reaching_hook_runs_N_plus_one_times thirdRunRaisesEnv 1 0 [] 7
      (fun j hj => by interval_cases j <;> decide)
      (fun h hh => by simp [thirdRunRaisesEnv, hh])
      (fun h hh => by simp [thirdRunRaisesEnv, hh])).2.1⟩

/-! ## Facts about the pool -/

theorem findIdle_lt (ws : List (Option TaskId)) (i : Nat) (h : findIdle ws = some i) :
    i < ws.length := by
  induction ws generalizing i with
  | nil => simp [findIdle] at h
  | cons w ws ih =>
    cases w with
    | none =>
      simp [findIdle] at h
      subst h
      simp
    | some t =>
      simp only [findIdle, Option.map_eq_some'] at h
      obtain ⟨j, hj, rfl⟩ := h
      have := ih j hj
      simp
      omega

theorem poolStep_bounded (N : Nat) (s : PoolStep) (p : ThreadPool) (h : p.bounded N) :
    (s.apply p).bounded N := by
  obtain ⟨hN, hlen, hran⟩ := h
  cases s with
  | addTask t =>
    simp only [PoolStep.apply, ThreadPool.AddTask]
    cases hf : findIdle p.workers with
    | some i =>
      refine ⟨hN, by simpa using hlen, ?_⟩
      intro x hx
      simp only [List.mem_cons] at hx
      rcases hx with rfl | hx
      · simpa using findIdle_lt _ _ hf
      · simpa using hran x hx
    | none =>
      simp only
      split
      · rename_i hlt
        refine ⟨hN, by simp; omega, ?_⟩
        intro x hx
        simp only [List.mem_cons] at hx
        rcases hx with rfl | hx
        · simp
        · have := hran x hx
          simp
          omega
      · exact ⟨hN, hlen, hran⟩
  | taskFinished i =>
    simp only [PoolStep.apply, ThreadPool.taskFinished]
    split
    · rename_i t hget
      have hi : i < p.workers.length := by
        rw [List.get?_eq_some] at hget
        exact hget.1
      split
      · exact ⟨hN, by simpa using hlen, by simpa using hran⟩
      · refine ⟨hN, by simpa using hlen, ?_⟩
        intro x hx
        simp only [List.mem_cons] at hx
        rcases hx with rfl | hx
        · simpa using hi
        · simpa using hran x hx
    · exact ⟨hN, hlen, hran⟩
  | update => exact ⟨hN, hlen, hran⟩

theorem run_bounded (N : Nat) (steps : List PoolStep) (p : ThreadPool) (h : p.bounded N) :
    (p.run steps).bounded N := by
  induction steps generalizing p with
  | nil => exact h
  | cons s ss ih => exact ih (s.apply p) (poolStep_bounded N s p h)

/-- C10: a pool that follows the dispatch policy of `AddTask` (idle worker,
else new worker below the maximum `N`, else pending queue) never has more than
`N` live workers, whatever the sequence of `AddTask` calls, task completions
and `Update` calls, and every task runs on one of these at most `N` workers;
with `N = 1` two tasks submitted one after the other's completion run on the
same worker; with `N ≥ 2` a second task submitted while the first is busy
runs on a distinct, newly spawned worker and the pending queue stays empty. -/
theorem C10_pool_dispatch_policy (N : Nat) (steps : List PoolStep) (t1 t2 : TaskId) :
    ((ThreadPool.new N).run steps).workers.length ≤ N
      ∧ (∀ x ∈ ((ThreadPool.new N).run steps).ranOn, x.1 < N)
      ∧ ((ThreadPool.new 1).run
            [PoolStep.addTask t1, PoolStep.taskFinished 0, PoolStep.addTask t2]).ranOn
          = [(0, t2), (0, t1)]
      ∧ (2 ≤ N →
          ((ThreadPool.new N).run [PoolStep.addTask t1, PoolStep.addTask t2]).ranOn
              = [(1, t2), (0, t1)]
            ∧ ((ThreadPool.new N).run [PoolStep.addTask t1, PoolStep.addTask t2]).workers
              = [some t1, some t2]
            ∧ ((ThreadPool.new N).run [PoolStep.addTask t1, PoolStep.addTask t2]).pending
              = []) := by
  have hb := run_bounded N steps (ThreadPool.new N)
    ⟨rfl, by simp [ThreadPool.new], by simp [ThreadPool.new]⟩
  refine ⟨hb.2.1, fun x hx => lt_of_lt_of_le (hb.2.2 x hx) hb.2.1, ?_, ?_⟩
  · simp [ThreadPool.run, PoolStep.apply, ThreadPool.AddTask, ThreadPool.taskFinished,
      ThreadPool.new, findIdle]
  · intro hN
    have h0 : 0 < N := by omega
    have h1 : 1 < N := by omega
    simp [ThreadPool.run, PoolStep.apply, ThreadPool.AddTask, ThreadPool.new, findIdle, h0, h1]

/-- C10 on the test `CreateNewThreadForNewTask`: a pool of two, tasks 1 and 2. -/
theorem C10_pool_dispatch_policy_witness :
    2 ≤ 2 ∧ ((ThreadPool.new 2).run [PoolStep.addTask 1, PoolStep.addTask 2]).ranOn
      = [(1, 2), (0, 1)] :=
  ⟨by decide, ((C10_pool_dispatch_policy 2 [] 1 2).2.2.2 (by decide)).1⟩

/-! ## Facts about the ticking task -/

theorem succ_div_mod (n k : Nat) (hk : 0 < k) :
    (n % k + 1 = k → (n + 1) / k = n / k + 1 ∧ (n + 1) % k = 0)
      ∧ (n % k + 1 < k → (n + 1) / k = n / k ∧ (n + 1) % k = n % k + 1) := by
  have hn : n + 1 = k * (n / k) + (n % k + 1) := by
    have := Nat.div_add_mod n k
    omega
  constructor
  · intro h
    rw [hn, Nat.mul_add_div hk, Nat.mul_add_mod, h, Nat.div_self hk, Nat.mod_self]
    exact ⟨rfl, rfl⟩
  · intro h
    rw [hn, Nat.mul_add_div hk, Nat.mul_add_mod, Nat.div_eq_of_lt h, Nat.mod_eq_of_lt h]
    exact ⟨rfl, rfl⟩

/-- One iteration in tick-interval mode, spelled out. -/
theorem iteration_enabled (s : TickingTask) (h : s.tickEnabled = true) :
    s.iteration
      = if s.elapsed + s.updateInterval ≥ s.tickInterval then
          { s with calls := TickEvent.tick :: TickEvent.sleepFor s.updateInterval :: s.calls,
                   elapsed := 0 }
        else
          { s with calls := TickEvent.sleepFor s.updateInterval :: s.calls,
                   elapsed := s.elapsed + s.updateInterval } := by
  simp only [TickingTask.iteration, h, if_true]

/-- The state of the loop after `n` iterations in tick-interval mode with
intervals `u` and `k * u`. -/
theorem iterations_invariant (u : Int) (k n : Nat) (hu : 0 < u) (hk : 1 ≤ k) :
    ((TickingTask.withInterval u (k * u)).iterations n).updateInterval = u
      ∧ ((TickingTask.withInterval u (k * u)).iterations n).tickInterval = k * u
      ∧ ((TickingTask.withInterval u (k * u)).iterations n).tickEnabled = true
      ∧ ((TickingTask.withInterval u (k * u)).iterations n).elapsed = ((n % k : Nat) : Int) * u
      ∧ sleepCount ((TickingTask.withInterval u (k * u)).iterations n).calls = n
      ∧ tickCount ((TickingTask.withInterval u (k * u)).iterations n).calls = n / k
      ∧ (∀ d, TickEvent.sleepFor d ∈ ((TickingTask.withInterval u (k * u)).iterations n).calls
          → d = u) := by
  induction n with
  | zero =>
    simp [TickingTask.iterations, TickingTask.withInterval, sleepCount, tickCount]
  | succ n ih =>
    obtain ⟨h1, h2, h3, h4, h5, h6, h7⟩ := ih
    have hlt : n % k < k := Nat.mod_lt n hk
    obtain ⟨hwrap, hstay⟩ := succ_div_mod n k hk
    simp only [TickingTask.iterations]
    rw [iteration_enabled _ h3, h1, h2, h4]
    by_cases hc : n % k + 1 = k
    · obtain ⟨hd, hm⟩ := hwrap hc
      have hge : ((n % k : Nat) : Int) * u + u ≥ (k : Int) * u := by
        have : ((n % k : Nat) : Int) + 1 = (k : Int) := by exact_mod_cast hc
        rw [← this]
        linarith
      rw [if_pos hge, hd, hm]
      refine ⟨rfl, rfl, h3, by simp, by simp [sleepCount, h5], by simp [tickCount, sleepCount, h6],
        ?_⟩
      intro d hd2
      simp only [List.mem_cons] at hd2
      rcases hd2 with hd2 | hd2 | hd2
      · cases hd2
      · cases hd2; rfl
      · exact h7 d hd2
    · have hlt2 : n % k + 1 < k := by omega
      obtain ⟨hd, hm⟩ := hstay hlt2
      have hnge : ¬ (((n % k : Nat) : Int) * u + u ≥ (k : Int) * u) := by
        have : ((n % k : Nat) : Int) + 1 < (k : Int) := by exact_mod_cast hlt2
        nlinarith
      rw [if_neg hnge, hd, hm]
      refine ⟨rfl, rfl, h3, by push_cast; ring, by simp [sleepCount, h5],
        by simp [tickCount, h6], ?_⟩
      intro d hd2
      simp only [List.mem_cons] at hd2
      rcases hd2 with hd2 | hd2
      · cases hd2; rfl
      · exact h7 d hd2

/-- C11: in tick-interval mode with update interval `u > 0` and tick interval
`k * u`, `k ≥ 1`, started with `elapsed = 0`: iteration `n + 1` of the loop
calls `SleepFor(u)` once, adds `u` to `elapsed`, and calls `Tick()` and resets
`elapsed` to zero exactly when the sum has reached the tick interval; so after
`n` iterations `SleepFor` has been called `n` times, always with `u`, `Tick()`
has been called `n / k` times, `elapsed` is `(n % k) * u`; and for `k > 1` and
`n ≥ 1` there are more `SleepFor` calls than `Tick()` calls. -/
theorem C11_sleeps_and_ticks (u : Int) (k n : Nat) (hu : 0 < u) (hk : 1 ≤ k) :
    ((TickingTask.withInterval u (k * u)).iterations (n + 1)).calls
        = (if ((TickingTask.withInterval u (k * u)).iterations n).elapsed + u ≥ k * u then
            [TickEvent.tick, TickEvent.sleepFor u]
          else [TickEvent.sleepFor u])
          ++ ((TickingTask.withInterval u (k * u)).iterations n).calls
      ∧ ((TickingTask.withInterval u (k * u)).iterations (n + 1)).elapsed
        = (if ((TickingTask.withInterval u (k * u)).iterations n).elapsed + u ≥ k * u then 0
          else ((TickingTask.withInterval u (k * u)).iterations n).elapsed + u)
      ∧ sleepCount ((TickingTask.withInterval u (k * u)).iterations n).calls = n
      ∧ tickCount ((TickingTask.withInterval u (k * u)).iterations n).calls = n / k
      ∧ ((TickingTask.withInterval u (k * u)).iterations n).elapsed = ((n % k : Nat) : Int) * u
      ∧ (∀ d, TickEvent.sleepFor d ∈ ((TickingTask.withInterval u (k * u)).iterations n).calls
          → d = u)
      ∧ (1 < k → 1 ≤ n →
          tickCount ((TickingTask.withInterval u (k * u)).iterations n).calls
            < sleepCount ((TickingTask.withInterval u (k * u)).iterations n).calls) := by
  obtain ⟨h1, h2, h3, h4, h5, h6, h7⟩ := iterations_invariant u k n hu hk
  have hstep : (TickingTask.withInterval u (k * u)).iterations (n + 1)
      = ((TickingTask.withInterval u (k * u)).iterations n).iteration := rfl
  refine ⟨?_, ?_, h5, h6, h4, h7, ?_⟩
  · rw [hstep, iteration_enabled _ h3, h1, h2]
    split <;> simp
  · rw [hstep, iteration_enabled _ h3, h1, h2]
    split <;> simp
  · intro hk1 hn
    rw [h5, h6]
    exact Nat.div_lt_self (by omega) hk1

/-- C11 on the intervals of the test `WithInterval`, update 1 and tick 10,
after 25 iterations: 25 waits and 2 ticks. -/
theorem C11_sleeps_and_ticks_witness :
    (0 : Int) < 1 ∧ 1 ≤ 10
      ∧ sleepCount ((TickingTask.withInterval 1 ((10 : Nat) * 1)).iterations 25).calls = 25
      ∧ tickCount ((TickingTask.withInterval 1 ((10 : Nat) * 1)).iterations 25).calls = 25 / 10 :=
  ⟨by decide, by decide,
   (C11_sleeps_and_ticks 1 10 25 (by decide) (by decide)).2.2.1,
   (C11_sleeps_and_ticks 1 10 25 (by decide) (by decide)).2.2.2.1⟩

end Threading
end SimpleConcurrency
